import Mathlib

set_option maxHeartbeats 1000000

namespace SecretCtrl

/-! Shallow embedding of the secret controller (pkg/controller/secret:
secret_controller.go and the string-generator file). Go maps are modelled as
association lists; map reads return the Go zero value (empty string / nil
byte slice) for missing keys. Entropy reads are modelled by their outcomes,
passed in as parameters. -/

/-- Byte slices ([]byte) as lists of byte values. -/
abbrev Bytes := List Nat

/-- Annotation maps: string to string. -/
abbrev StrMap := List (String × String)

/-- Secret data maps: field name to byte slice. -/
abbrev DataMap := List (String × Bytes)

/-- First-match lookup in an association list (Go map read). -/
def alLookup {V : Type} : List (String × V) → String → Option V
  | [], _ => none
  | (k, v) :: rest, key => if k = key then some v else alLookup rest key

/-- Go map write m[k] = v: replace in place, or append a new entry. -/
def alInsert {V : Type} : List (String × V) → String → V → List (String × V)
  | [], key, val => [(key, val)]
  | (k, v) :: rest, key, val =>
    if k = key then (key, val) :: rest else (k, v) :: alInsert rest key val

/-- Go delete(m, k). -/
def alErase {V : Type} (m : List (String × V)) (key : String) : List (String × V) :=
  m.filter (fun p => p.1 != key)

/-- Go read m[k] on a data map: nil slice for a missing key. -/
def dataGet (m : DataMap) (k : String) : Bytes := (alLookup m k).getD []

/-- Go read m[k] on an annotation map: empty string for a missing key. -/
def annGet (m : StrMap) (k : String) : String := (alLookup m k).getD ""

/-- Character-level splitter mirroring Go strings.Split with a one-character
separator ("," is the only separator the source uses). -/
def splitChars (sep : Char) : List Char → List (List Char)
  | [] => [[]]
  | c :: rest =>
    if c = sep then [] :: splitChars sep rest
    else
      match splitChars sep rest with
      | [] => [[c]]
      | g :: gs => (c :: g) :: gs

/-- Go strings.Split(s, sep) for a one-character separator. -/
def stringsSplit (s : String) (sep : Char) : List String :=
  (splitChars sep s.data).map List.asString

/-- UTF-8 encoding of one character, mirroring Go's string-to-byte-slice
conversion. -/
def charBytes (c : Char) : Bytes :=
  let n := c.toNat
  if n < 128 then [n]
  else if n < 2048 then [192 + n / 64, 128 + n % 64]
  else if n < 65536 then [224 + n / 4096, 128 + n / 64 % 64, 128 + n % 64]
  else [240 + n / 262144, 128 + n / 4096 % 64, 128 + n / 64 % 64, 128 + n % 64]

/-- Go []byte(s): the UTF-8 bytes of a string. -/
def strBytes (s : String) : Bytes := s.data.flatMap charBytes

/-- Hexadecimal digit characters, lowercase, as byte values. -/
def hexDigit (n : Nat) : Nat := if n < 10 then 48 + n else 87 + n

/-- encoding/hex EncodeToString, as UTF-8 byte values. -/
def hexEncode : Bytes → Bytes
  | [] => []
  | b :: rest => hexDigit (b / 16) :: hexDigit (b % 16) :: hexEncode rest

/-- Base64 alphabet (standard or URL-safe) indexed by sixtet value. -/
def b64Char (url : Bool) (i : Nat) : Nat :=
  if i < 26 then 65 + i
  else if i < 52 then 71 + i
  else if i < 62 then i - 4
  else if i = 62 then (if url then 45 else 43)
  else if url then 95 else 47

/-- encoding/base64 EncodeToString with standard padding (RFC 4648); the
flag selects the URL-safe alphabet. Byte value 61 is the pad character. -/
def base64Encode (url : Bool) : Bytes → Bytes
  | [] => []
  | [a] => [b64Char url (a / 4), b64Char url (a % 4 * 16), 61, 61]
  | [a, b] =>
    [b64Char url (a / 4), b64Char url (a % 4 * 16 + b / 16), b64Char url (b % 16 * 4), 61]
  | a :: b :: c :: rest =>
    b64Char url (a / 4) :: b64Char url (a % 4 * 16 + b / 16) ::
      b64Char url (b % 16 * 4 + c / 64) :: b64Char url (c % 64) :: base64Encode url rest

/-- Base32 standard alphabet (A-Z, 2-7) indexed by five-bit value. -/
def b32Char (i : Nat) : Nat := if i < 26 then 65 + i else 24 + i

/-- encoding/base32 StdEncoding EncodeToString with standard padding
(RFC 4648). -/
def base32Encode : Bytes → Bytes
  | [] => []
  | [a] => [b32Char (a / 8), b32Char (a % 8 * 4), 61, 61, 61, 61, 61, 61]
  | [a, b] =>
    [b32Char (a / 8), b32Char (a % 8 * 4 + b / 64), b32Char (b / 2 % 32),
      b32Char (b % 2 * 16), 61, 61, 61, 61]
  | [a, b, c] =>
    [b32Char (a / 8), b32Char (a % 8 * 4 + b / 64), b32Char (b / 2 % 32),
      b32Char (b % 2 * 16 + c / 16), b32Char (c % 16 * 2), 61, 61, 61]
  | [a, b, c, d] =>
    [b32Char (a / 8), b32Char (a % 8 * 4 + b / 64), b32Char (b / 2 % 32),
      b32Char (b % 2 * 16 + c / 16), b32Char (c % 16 * 2 + d / 128),
      b32Char (d / 4 % 32), b32Char (d % 4 * 8), 61]
  | a :: b :: c :: d :: e :: rest =>
    b32Char (a / 8) :: b32Char (a % 8 * 4 + b / 64) :: b32Char (b / 2 % 32) ::
      b32Char (b % 2 * 16 + c / 16) :: b32Char (c % 16 * 2 + d / 128) ::
      b32Char (d / 4 % 32) :: b32Char (d % 4 * 8 + e / 32) :: b32Char (e % 32) ::
      base32Encode rest

/-- GenerateRandomString from the source. The entropy read rand.Read is
modelled by its outcome randBytes; on success Go guarantees exactly length
bytes were read. Go's slice expression encodedString[0:length] is modelled
by take (the bound length ≤ encoded length holds whenever the read returned
length bytes, see the length lemmas below). -/
def GenerateRandomString (randBytes : Except String Bytes) (length : Nat)
    (encoding : String) (lenBytes : Bool) : Except String Bytes :=
  match randBytes with
  | .error e => .error e
  | .ok b =>
    let finish := fun (s : Bytes) => if lenBytes then s else s.take length
    if encoding = "base64url" then .ok (finish (base64Encode true b))
    else if encoding = "raw" then .ok b
    else if encoding = "base32" then .ok (finish (base32Encode b))
    else if encoding = "hex" then .ok (finish (hexEncode b))
    else .ok (finish (base64Encode false b))

theorem hexEncode_length : (bs : Bytes) → (hexEncode bs).length = 2 * bs.length
  | [] => rfl
  | b :: rest => by
    simp [hexEncode, hexEncode_length rest]
    omega

theorem base64Encode_length (url : Bool) :
    (bs : Bytes) → (base64Encode url bs).length = 4 * ((bs.length + 2) / 3)
  | [] => rfl
  | [a] => by simp [base64Encode]
  | [a, b] => by simp [base64Encode]
  | a :: b :: c :: rest => by
    simp [base64Encode, base64Encode_length url rest]
    omega

theorem base32Encode_length :
    (bs : Bytes) → (base32Encode bs).length = 8 * ((bs.length + 4) / 5)
  | [] => rfl
  | [a] => by simp [base32Encode]
  | [a, b] => by simp [base32Encode]
  | [a, b, c] => by simp [base32Encode]
  | [a, b, c, d] => by simp [base32Encode]
  | a :: b :: c :: d :: e :: rest => by
    simp [base32Encode, base32Encode_length rest]
    omega

/-- Process-wide configuration (the viper flags read by the source). -/
structure Config where
  regenerateInsecure : Bool
  secretLength : Nat
  secretEncoding : String
deriving DecidableEq, Repr

/-- viper.GetBool("regenerate-insecure"). -/
def RegenerateInsecure (cfg : Config) : Bool := cfg.regenerateInsecure

/-- viper.GetInt("secret-length"). -/
def DefaultLength (cfg : Config) : Nat := cfg.secretLength

/-- viper.GetString("secret-encoding"). -/
def DefaultEncoding (cfg : Config) : String := cfg.secretEncoding

/-- ByteSuffix constant from the source. -/
def ByteSuffix : String := "b"

/-- Modelled from the spec: the type-declaration annotation key; its constant
is declared outside the provided sources, and only its distinctness from the
other keys matters here. -/
def AnnotationSecretType : String := "secret-generator/type"

/-- Modelled from the spec: the autogenerate-fields annotation key. -/
def AnnotationSecretAutoGenerate : String := "secret-generator/autogenerate"

/-- Modelled from the spec: the length annotation key. -/
def AnnotationSecretLength : String := "secret-generator/length"

/-- Modelled from the spec: the encoding annotation key. -/
def AnnotationSecretEncoding : String := "secret-generator/encoding"

/-- Modelled from the spec: the template annotation key. -/
def AnnotationSecretTemplate : String := "secret-generator/template"

/-- Modelled from the spec: the regenerate-request annotation key. -/
def AnnotationSecretRegenerate : String := "secret-generator/regenerate"

/-- Modelled from the spec: the secure-marker annotation key. -/
def AnnotationSecretSecure : String := "secret-generator/secure"

/-- Modelled from the spec: the generated-timestamp annotation key. -/
def AnnotationSecretAutoGeneratedAt : String := "secret-generator/generated-at"

/-- A Secret resource: its data map and its annotation map (the only parts
the core reads or writes). Nil and empty Go maps are conflated. -/
structure Secret where
  data : DataMap
  annotations : StrMap
deriving DecidableEq, Repr

/-- GetLengthFromAnnotation from the source. The Go function's error result
is always nil and is elided. -/
def GetLengthFromAnnotation (fallback : Nat) (annotations : StrMap) : String :=
  match alLookup annotations AnnotationSecretLength with
  | some val => val
  | none => toString fallback

/-- getEncodingFromAnnotation from the source (always-nil error elided). -/
def getEncodingFromAnnotation (fallback : String) (annotations : StrMap) : String :=
  match alLookup annotations AnnotationSecretEncoding with
  | some val => val
  | none => fallback

/-- getTemplateFromAnnotation from the source (always-nil error elided). -/
def getTemplateFromAnnotation (fallback : String) (annotations : StrMap) : String :=
  match alLookup annotations AnnotationSecretTemplate with
  | some val => val
  | none => fallback

/-- Decimal digit value of a character, if it is a digit. -/
def charDigit (c : Char) : Option Nat :=
  if 48 ≤ c.toNat ∧ c.toNat ≤ 57 then some (c.toNat - 48) else none

/-- Accumulator recursion for decimal parsing. -/
def digitsToNatGo : Nat → List Char → Option Nat
  | acc, [] => some acc
  | acc, c :: rest =>
    match charDigit c with
    | some d => digitsToNatGo (acc * 10 + d) rest
    | none => none

/-- Decimal parse of a character list (strconv.Atoi for non-negative
numbers; empty or non-numeric input is a failure). -/
def parseNat : List Char → Option Nat
  | [] => none
  | c :: rest => digitsToNatGo 0 (c :: rest)

/-- Modelled from the spec: ParseByteLength is declared outside the provided
sources. Per the spec, a length string with the trailing ByteSuffix "b" is a
literal byte count (no trimming of the encoded output); otherwise the number
is the requested output-character count; a non-numeric length is an error. -/
def ParseByteLength (fallback : Nat) (length : String) : Nat × Bool × Option String :=
  if length.data.getLast? = some 'b' then
    match parseNat length.data.dropLast with
    | some n => (n, true, none)
    | none => (fallback, true, some "invalid length")
  else
    match parseNat length.data with
    | some n => (n, false, none)
    | none => (fallback, false, some "invalid length")

/-- Fuel-based core of bytes.ReplaceAll; fuel is the length of the subject,
enough because every step consumes at least one byte. The pattern is the
never-empty template key, so the zero-fuel branch is unreachable. -/
def listReplaceAllAux (pat rep : Bytes) : Nat → Bytes → Bytes
  | _, [] => []
  | 0, s => s
  | fuel + 1, a :: rest =>
    if pat ≠ [] ∧ pat.isPrefixOf (a :: rest) then
      rep ++ listReplaceAllAux pat rep fuel (rest.drop (pat.length - 1))
    else
      a :: listReplaceAllAux pat rep fuel rest

/-- Go bytes.ReplaceAll(s, pat, rep) for a non-empty pattern. -/
def listReplaceAll (pat rep s : Bytes) : Bytes :=
  listReplaceAllAux pat rep s.length s

/-- templateKey constant from generateRandomSecret. -/
def templateKeyStr : String := "${SECRET}"

/-- Value computed by generateRandomSecret for one field: random string in
the annotation-selected encoding, substituted into the annotation-selected
template. The write into the data map is done by the caller's loop. -/
def generateRandomSecretValue (cfg : Config) (randBytes : Except String Bytes)
    (annotations : StrMap) (length : Nat) (isByteLength : Bool) : Except String Bytes :=
  let encoding := getEncodingFromAnnotation (DefaultEncoding cfg) annotations
  match GenerateRandomString randBytes length encoding isByteLength with
  | .error e => .error e
  | .ok value =>
    let template := getTemplateFromAnnotation templateKeyStr annotations
    .ok (listReplaceAll (strBytes templateKeyStr) value (strBytes template))

/-- generateRandomSecret from the source: computes the field value and
writes it into the resource's data map (secretConfig flattened into
arguments). -/
def generateRandomSecret (cfg : Config) (randBytes : Except String Bytes)
    (inst : Secret) (key : String) (length : Nat) (isByteLength : Bool) :
    Except String Secret :=
  match generateRandomSecretValue cfg randBytes inst.annotations length isByteLength with
  | .error e => .error e
  | .ok value => .ok { inst with data := alInsert inst.data key value }

/-- contains helper from the source. -/
def contains : List String → String → Bool
  | [], _ => false
  | a :: rest, e => if a = e then true else contains rest e

/-- Accumulator recursion of ensureUniqueness (the Go set is the list of
elements seen so far). -/
def ensureUniquenessGo : List String → List String → Except String Unit
  | _, [] => .ok ()
  | seen, e :: rest =>
    if contains seen e then .error ("duplicate element " ++ e ++ " found")
    else ensureUniquenessGo (e :: seen) rest

/-- ensureUniqueness from the source. -/
def ensureUniqueness (a : List String) : Except String Unit :=
  ensureUniquenessGo [] a

/-- Requeue directive (reconcile.Result): Requeue flag and RequeueAfter in
seconds. -/
structure RecResult where
  requeue : Bool := false
  requeueAfter : Nat := 0
deriving DecidableEq, Repr

/-- Outcome of a generator pass: the mutated resource, the requeue
directive, and the error if any. -/
structure GenOutcome where
  secret : Secret
  res : RecResult
  err : Option String
deriving DecidableEq, Repr

/-- State after the generation loop: the mutated resource, the next entropy
call index, the generatedCount counter, and the error if any. -/
structure LoopOut where
  secret : Secret
  idx : Nat
  count : Nat
  err : Option String
deriving DecidableEq, Repr

/-- Regeneration-set computation at the top of regenerateKeysWhereRequired:
possibly consumes the regenerate annotation and returns the updated resource
together with regenKeys. -/
def computeRegenKeys (cfg : Config) (inst : Secret) (genKeys : List String) :
    Secret × List String :=
  if (alLookup inst.annotations AnnotationSecretSecure).isNone ∧ RegenerateInsecure cfg then
    (inst, genKeys)
  else
    match alLookup inst.annotations AnnotationSecretRegenerate with
    | some regenerate =>
      let inst2 : Secret :=
        { inst with annotations := alErase inst.annotations AnnotationSecretRegenerate }
      if regenerate = "yes" then (inst2, genKeys)
      else (inst2, stringsSplit regenerate ',')
    | none => (inst, [])

/-- Per-field loop of regenerateKeysWhereRequired. A field is skipped when
it already has a non-empty value and is not queued for regeneration;
otherwise generatedCount is incremented and a value is generated, a failure
ending the loop. -/
def generateLoop (cfg : Config) (entropy : Nat → Except String Bytes)
    (regenKeys : List String) (parsedLength : Nat) (isByteLength : Bool) :
    List String → Secret → Nat → Nat → LoopOut
  | [], inst, idx, count => ⟨inst, idx, count, none⟩
  | key :: rest, inst, idx, count =>
    if (dataGet inst.data key).length ≠ 0 ∧ contains regenKeys key = false then
      generateLoop cfg entropy regenKeys parsedLength isByteLength rest inst idx count
    else
      match generateRandomSecret cfg (entropy idx) inst key parsedLength isByteLength with
      | .error e => ⟨inst, idx, count + 1, some e⟩
      | .ok inst2 =>
        generateLoop cfg entropy regenKeys parsedLength isByteLength rest inst2 (idx + 1) (count + 1)

/-- regenerateKeysWhereRequired from the source: compute the regeneration
set, resolve the length annotation, run the per-field loop (a failure yields
a 30-second requeue), and set the secure marker when every declared field
was generated in this pass. -/
def regenerateKeysWhereRequired (cfg : Config) (entropy : Nat → Except String Bytes)
    (inst : Secret) (genKeys : List String) : GenOutcome :=
  let step := computeRegenKeys cfg inst genKeys
  let inst1 := step.1
  let regenKeys := step.2
  let lengthStr := GetLengthFromAnnotation (DefaultLength cfg) inst1.annotations
  match ParseByteLength (DefaultLength cfg) lengthStr with
  | (_, _, some e) => { secret := inst1, res := {}, err := some e }
  | (parsedLength, isByteLength, none) =>
    match generateLoop cfg entropy regenKeys parsedLength isByteLength genKeys inst1 0 0 with
    | ⟨inst2, _, _, some e⟩ => { secret := inst2, res := { requeueAfter := 30 }, err := some e }
    | ⟨inst2, _, count, none⟩ =>
      let inst3 : Secret :=
        if count = genKeys.length then
          { inst2 with annotations := alInsert inst2.annotations AnnotationSecretSecure "yes" }
        else inst2
      { secret := inst3, res := {}, err := none }

/-- generateData of the StringGenerator: split the autogenerate annotation
on commas, validate uniqueness, then run the regeneration pass. -/
def generateData (cfg : Config) (entropy : Nat → Except String Bytes)
    (inst : Secret) : GenOutcome :=
  let toGenerate := annGet inst.annotations AnnotationSecretAutoGenerate
  let genKeys := stringsSplit toGenerate ','
  match ensureUniqueness genKeys with
  | .error e => { secret := inst, res := {}, err := some e }
  | .ok _ => regenerateKeysWhereRequired cfg entropy inst genKeys

/-- TypeString tag (the value written for backwards compatibility). -/
def TypeString : String := "string"

/-- Modelled from the spec: the SSH-keypair type tag (declared outside the
provided sources). -/
def TypeSSHKeypair : String := "ssh-keypair"

/-- Modelled from the spec: the basic-auth type tag (declared outside the
provided sources). -/
def TypeBasicAuth : String := "basic-auth"

/-- Modelled from the spec: Type.Validate is declared outside the provided
sources; per the spec the valid tags are exactly the three variants, and the
empty or any unknown value is invalid. -/
def TypeValidate (t : String) : Bool :=
  t = TypeString || t = TypeSSHKeypair || t = TypeBasicAuth

/-- Extensional equality of two maps, the semantics of reflect.DeepEqual on
Go maps (nil and empty conflated as in the Secret model). -/
def mapEqB {V : Type} [DecidableEq V] (m1 m2 : List (String × V)) : Bool :=
  m1.all (fun p => decide (alLookup m1 p.1 = alLookup m2 p.1)) &&
    m2.all (fun p => decide (alLookup m1 p.1 = alLookup m2 p.1))

/-- Diff condition of the Reconcile pass: annotations or data changed. -/
def needsUpdate (inst desired : Secret) : Bool :=
  !mapEqB inst.annotations desired.annotations || !mapEqB inst.data desired.data

/-- Outcome of one Reconcile pass on a fetched resource: the returned
requeue directive and error, the resource passed to client.Update (none
when no persistence call was made), and the desired copy at return time. -/
structure ReconcileOutcome where
  res : RecResult
  err : Option String
  updated : Option Secret
  secret : Secret
deriving DecidableEq, Repr

/-- Reconcile from the source, for a successfully fetched resource inst
(fetching itself is external). otherGen stands for the SSHKeypair and
BasicAuth generators, which live outside the provided sources; updateErr is
the outcome of the client.Update call, and now the timestamp written on
persistence. The nil-check on desired.Data is the identity in this model. -/
def Reconcile (cfg : Config) (entropy : Nat → Except String Bytes)
    (otherGen : String → Secret → GenOutcome) (now : String)
    (updateErr : Option String) (inst : Secret) : ReconcileOutcome :=
  let desired := inst
  let sType0 := annGet desired.annotations AnnotationSecretType
  let step : Option (Secret × String) :=
    if TypeValidate sType0 then some (desired, sType0)
    else if (alLookup desired.annotations AnnotationSecretAutoGenerate).isNone ∧ sType0 = "" then
      none
    else
      some ({ desired with
                annotations := alInsert desired.annotations AnnotationSecretType TypeString },
            TypeString)
  match step with
  | none => { res := {}, err := none, updated := none, secret := inst }
  | some (desired1, sType) =>
    let gen : GenOutcome :=
      if sType = TypeSSHKeypair then otherGen sType desired1
      else if sType = TypeString then generateData cfg entropy desired1
      else if sType = TypeBasicAuth then otherGen sType desired1
      else { secret := desired1, res := { requeue := true }, err := some "SecretTypeNotSpecified" }
    match gen.err with
    | some e => { res := gen.res, err := some e, updated := none, secret := gen.secret }
    | none =>
      let desired2 := gen.secret
      if needsUpdate inst desired2 then
        let desired3 : Secret :=
          { desired2 with
              annotations := alInsert desired2.annotations AnnotationSecretAutoGeneratedAt now }
        match updateErr with
        | some e => { res := { requeue := true }, err := some e, updated := some desired3, secret := desired3 }
        | none => { res := {}, err := none, updated := some desired3, secret := desired3 }
      else { res := {}, err := none, updated := none, secret := desired2 }

theorem alLookup_alInsert_self {V : Type} (m : List (String × V)) (k : String) (v : V) :
    alLookup (alInsert m k v) k = some v := by
  induction m with
  | nil => simp [alInsert, alLookup]
  | cons p rest ih =>
    obtain ⟨k0, v0⟩ := p
    by_cases h : k0 = k
    · simp [alInsert, alLookup, h]
    · simp [alInsert, alLookup, h, ih]

theorem alLookup_alInsert_ne {V : Type} (m : List (String × V)) (k k2 : String) (v : V)
    (h : k2 ≠ k) : alLookup (alInsert m k v) k2 = alLookup m k2 := by
  have hne : ¬ k = k2 := fun hh => h hh.symm
  induction m with
  | nil => simp [alInsert, alLookup, hne]
  | cons p rest ih =>
    obtain ⟨k0, v0⟩ := p
    simp only [alInsert]
    by_cases h0 : k0 = k
    · rw [if_pos h0]
      have hk0 : ¬ k0 = k2 := by rw [h0]; exact hne
      simp [alLookup, hne, hk0]
    · rw [if_neg h0]
      by_cases h2 : k0 = k2
      · simp [alLookup, h2]
      · simp [alLookup, h2, ih]

theorem alLookup_alErase_self {V : Type} (m : List (String × V)) (k : String) :
    alLookup (alErase m k) k = none := by
  induction m with
  | nil => simp [alErase, alLookup]
  | cons p rest ih =>
    obtain ⟨k0, v0⟩ := p
    simp only [alErase, List.filter_cons] at ih ⊢
    by_cases h : k0 = k
    · simp only [h, bne_self_eq_false, if_false]
      exact ih
    · have : (k0 != k) = true := by simp [h]
      rw [this, if_pos rfl]
      simp only [alLookup, h, if_false]
      exact ih

theorem alLookup_alErase_ne {V : Type} (m : List (String × V)) (k k2 : String)
    (h : k2 ≠ k) : alLookup (alErase m k) k2 = alLookup m k2 := by
  induction m with
  | nil => simp [alErase, alLookup]
  | cons p rest ih =>
    obtain ⟨k0, v0⟩ := p
    simp only [alErase, List.filter_cons] at ih ⊢
    by_cases h0 : k0 = k
    · simp only [h0, bne_self_eq_false, Bool.false_eq_true, if_false]
      have hkk2 : ¬ k = k2 := fun hh => h hh.symm
      rw [ih]
      simp [alLookup, hkk2]
    · have : (k0 != k) = true := by simp [h0]
      rw [this, if_pos rfl]
      by_cases h2 : k0 = k2
      · simp [alLookup, h2]
      · simp [alLookup, h2, ih]

theorem alLookup_mem {V : Type} (m : List (String × V)) (k : String) (v : V)
    (h : alLookup m k = some v) : (k, v) ∈ m := by
  induction m with
  | nil => simp [alLookup] at h
  | cons p rest ih =>
    obtain ⟨k0, v0⟩ := p
    by_cases h0 : k0 = k
    · subst h0
      simp [alLookup] at h
      simp [h]
    · simp [alLookup, h0] at h
      exact List.mem_cons_of_mem _ (ih h)

theorem contains_iff (l : List String) (e : String) : contains l e = true ↔ e ∈ l := by
  induction l with
  | nil => simp [contains]
  | cons a rest ih =>
    by_cases h : a = e
    · simp [contains, h]
    · have hne : ¬ e = a := fun hh => h hh.symm
      simp [contains, h, ih, hne]

theorem ensureUniquenessGo_ok_iff :
    ∀ (l seen : List String),
      ensureUniquenessGo seen l = Except.ok () ↔ l.Nodup ∧ ∀ x ∈ l, contains seen x = false := by
  intro l
  induction l with
  | nil => intro seen; simp [ensureUniquenessGo]
  | cons e rest ih =>
    intro seen
    have hstep : ensureUniquenessGo seen (e :: rest) =
        if contains seen e then Except.error ("duplicate element " ++ e ++ " found")
        else ensureUniquenessGo (e :: seen) rest := rfl
    cases hc : contains seen e with
    | true =>
      rw [hstep, hc]
      simp only [if_pos]
      constructor
      · intro hh; simp at hh
      · rintro ⟨-, hall⟩
        have h2 := hall e (by simp)
        rw [hc] at h2
        cases h2
    | false =>
      rw [hstep, hc]
      simp only [Bool.false_eq_true, if_false, ih]
      constructor
      · rintro ⟨hnd, hall⟩
        have hnotmem : e ∉ rest := by
          intro hmem
          have := hall e hmem
          simp [contains] at this
        refine ⟨List.nodup_cons.mpr ⟨hnotmem, hnd⟩, ?_⟩
        intro x hx
        rcases List.mem_cons.mp hx with rfl | hx2
        · exact hc
        · have := hall x hx2
          simp [contains] at this
          exact this.2
      · rintro ⟨hnd, hall⟩
        refine ⟨(List.nodup_cons.mp hnd).2, ?_⟩
        intro x hx
        have hne : ¬ e = x := by
          rintro rfl
          exact (List.nodup_cons.mp hnd).1 hx
        have := hall x (List.mem_cons_of_mem _ hx)
        simp [contains, hne, this]

theorem ensureUniqueness_ok_iff (a : List String) :
    ensureUniqueness a = Except.ok () ↔ a.Nodup := by
  rw [ensureUniqueness, ensureUniquenessGo_ok_iff]
  simp [contains]

theorem splitChars_ne_nil (sep : Char) : ∀ l : List Char, splitChars sep l ≠ [] := by
  intro l
  induction l with
  | nil => simp [splitChars]
  | cons c rest ih =>
    by_cases h : c = sep
    · simp [splitChars, h]
    · simp only [splitChars, h, if_false]
      cases hs : splitChars sep rest <;> simp

theorem stringsSplit_ne_nil (s : String) (sep : Char) : stringsSplit s sep ≠ [] := by
  simp only [stringsSplit, ne_eq, List.map_eq_nil_iff]
  exact splitChars_ne_nil sep s.data

theorem mapEqB_true_iff {V : Type} [DecidableEq V] (m1 m2 : List (String × V)) :
    mapEqB m1 m2 = true ↔ ∀ k, alLookup m1 k = alLookup m2 k := by
  constructor
  · intro h k
    rw [mapEqB, Bool.and_eq_true, List.all_eq_true, List.all_eq_true] at h
    cases h1 : alLookup m1 k with
    | some v =>
      have := h.1 (k, v) (alLookup_mem m1 k v h1)
      simpa [h1] using of_decide_eq_true this
    | none =>
      cases h2 : alLookup m2 k with
      | some w =>
        have := h.2 (k, w) (alLookup_mem m2 k w h2)
        have := of_decide_eq_true this
        rw [h1, h2] at this
        exact this
      | none => rfl
  · intro h
    rw [mapEqB, Bool.and_eq_true, List.all_eq_true, List.all_eq_true]
    exact ⟨fun p _ => decide_eq_true (h p.1), fun p _ => decide_eq_true (h p.1)⟩

theorem mapEqB_refl {V : Type} [DecidableEq V] (m : List (String × V)) :
    mapEqB m m = true := (mapEqB_true_iff m m).mpr (fun _ => rfl)

/-- Field k gets generated in this pass: empty current value, or queued for
regeneration (the negation of the loop's skip condition). -/
def willGen (regenKeys : List String) (d : DataMap) (k : String) : Bool :=
  decide ((dataGet d k).length = 0) || contains regenKeys k

theorem willGen_false_iff (rk : List String) (d : DataMap) (k : String) :
    willGen rk d k = false ↔ ((dataGet d k).length ≠ 0 ∧ contains rk k = false) := by
  simp [willGen, Bool.or_eq_false_iff]

theorem GenerateRandomString_ok (b : Bytes) (n : Nat) (enc : String) (lb : Bool) :
    ∃ out, GenerateRandomString (Except.ok b) n enc lb = Except.ok out := by
  simp only [GenerateRandomString]
  split_ifs <;> exact ⟨_, rfl⟩

theorem generateRandomSecretValue_ok (cfg : Config) (b : Bytes) (ann : StrMap)
    (L : Nat) (iB : Bool) :
    ∃ v, generateRandomSecretValue cfg (Except.ok b) ann L iB = Except.ok v := by
  simp only [generateRandomSecretValue]
  obtain ⟨out, hout⟩ :=
    GenerateRandomString_ok b L ( getEncodingFromAnnotation (DefaultEncoding cfg) ann) iB
  rw [hout]
  exact ⟨_, rfl⟩

theorem generateRandomSecret_ok_iff (cfg : Config) (rb : Except String Bytes)
    (inst : Secret) (key : String) (L : Nat) (iB : Bool) (inst2 : Secret) :
    generateRandomSecret cfg rb inst key L iB = Except.ok inst2 ↔
      ∃ v, generateRandomSecretValue cfg rb inst.annotations L iB = Except.ok v ∧
        inst2 = { inst with data := alInsert inst.data key v } := by
  simp only [generateRandomSecret]
  cases hv : generateRandomSecretValue cfg rb inst.annotations L iB with
  | error e => simp
  | ok v =>
    constructor
    · intro hh
      refine ⟨v, rfl, ?_⟩
      cases hh
      rfl
    · rintro ⟨v2, hv2, rfl⟩
      cases hv2
      rfl

theorem generateRandomSecret_error_iff (cfg : Config) (rb : Except String Bytes)
    (inst : Secret) (key : String) (L : Nat) (iB : Bool) (e : String) :
    generateRandomSecret cfg rb inst key L iB = Except.error e ↔
      generateRandomSecretValue cfg rb inst.annotations L iB = Except.error e := by
  simp only [generateRandomSecret]
  cases hv : generateRandomSecretValue cfg rb inst.annotations L iB with
  | error e2 => simp
  | ok v => simp

theorem generateLoop_skip_all (cfg : Config) (entropy : Nat → Except String Bytes)
    (rk : List String) (L : Nat) (iB : Bool) :
    ∀ (keys : List String) (inst : Secret) (idx count : Nat),
      (∀ k ∈ keys, (dataGet inst.data k).length ≠ 0 ∧ contains rk k = false) →
      generateLoop cfg entropy rk L iB keys inst idx count = ⟨inst, idx, count, none⟩ := by
  intro keys
  induction keys with
  | nil => intro inst idx count _; rfl
  | cons key rest ih =>
    intro inst idx count hall
    have hstep : generateLoop cfg entropy rk L iB (key :: rest) inst idx count =
        (if (dataGet inst.data key).length ≠ 0 ∧ contains rk key = false then
          generateLoop cfg entropy rk L iB rest inst idx count
        else
          match generateRandomSecret cfg (entropy idx) inst key L iB with
          | .error e => ⟨inst, idx, count + 1, some e⟩
          | .ok inst2 =>
            generateLoop cfg entropy rk L iB rest inst2 (idx + 1) (count + 1)) := rfl
    rw [hstep, if_pos (hall key (by simp))]
    exact ih inst idx count (fun k hk => hall k (List.mem_cons_of_mem _ hk))

theorem generateLoop_inv (cfg : Config) (entropy : Nat → Except String Bytes)
    (rk : List String) (L : Nat) (iB : Bool) :
    ∀ (keys : List String) (inst : Secret) (idx count : Nat),
      (generateLoop cfg entropy rk L iB keys inst idx count).secret.annotations =
        inst.annotations ∧
      (∀ k, alLookup (generateLoop cfg entropy rk L iB keys inst idx count).secret.data k =
          alLookup inst.data k ∨
        ∃ i v, generateRandomSecretValue cfg (entropy i) inst.annotations L iB = Except.ok v ∧
          alLookup (generateLoop cfg entropy rk L iB keys inst idx count).secret.data k =
            some v) := by
  intro keys
  induction keys with
  | nil => intro inst idx count; exact ⟨rfl, fun k => Or.inl rfl⟩
  | cons key rest ih =>
    intro inst idx count
    have hstep : generateLoop cfg entropy rk L iB (key :: rest) inst idx count =
        (if (dataGet inst.data key).length ≠ 0 ∧ contains rk key = false then
          generateLoop cfg entropy rk L iB rest inst idx count
        else
          match generateRandomSecret cfg (entropy idx) inst key L iB with
          | .error e => ⟨inst, idx, count + 1, some e⟩
          | .ok inst2 =>
            generateLoop cfg entropy rk L iB rest inst2 (idx + 1) (count + 1)) := rfl
    by_cases hskip : (dataGet inst.data key).length ≠ 0 ∧ contains rk key = false
    · rw [hstep, if_pos hskip]
      exact ih inst idx count
    · rw [hstep, if_neg hskip]
      cases hgen : generateRandomSecret cfg (entropy idx) inst key L iB with
      | error e => exact ⟨rfl, fun k => Or.inl rfl⟩
      | ok inst2 =>
        obtain ⟨v, hv, rfl⟩ := (generateRandomSecret_ok_iff cfg _ inst key L iB inst2).mp hgen
        obtain ⟨ihann, ihdata⟩ := ih { inst with data := alInsert inst.data key v } (idx + 1) (count + 1)
        refine ⟨ihann, fun k => ?_⟩
        rcases ihdata k with hleft | ⟨i, v2, hv2, hsome⟩
        · by_cases hk : k = key
          · subst hk
            right
            exact ⟨idx, v, hv, by rw [hleft]; exact alLookup_alInsert_self inst.data k v⟩
          · left
            rw [hleft]
            exact alLookup_alInsert_ne inst.data key k v hk
        · right
          exact ⟨i, v2, hv2, hsome⟩

/-- Characterization of the generation loop when every entropy read
succeeds and the key list has no duplicates: no error, generatedCount counts
the generated fields, undeclared fields are untouched, skipped fields keep
their value, and each generated field k holds the value produced from the
entropy call whose index counts the generated fields before k. -/
theorem generateLoop_char (cfg : Config) (entropy : Nat → Except String Bytes)
    (rk : List String) (L : Nat) (iB : Bool)
    (hent : ∀ j, ∃ b, entropy j = Except.ok b) :
    ∀ (keys : List String) (inst : Secret) (idx count : Nat), keys.Nodup →
      (generateLoop cfg entropy rk L iB keys inst idx count).err = none ∧
      (generateLoop cfg entropy rk L iB keys inst idx count).count =
        count + keys.countP (fun k2 => willGen rk inst.data k2) ∧
      (∀ k, k ∉ keys →
        alLookup (generateLoop cfg entropy rk L iB keys inst idx count).secret.data k =
          alLookup inst.data k) ∧
      (∀ k ∈ keys,
        (willGen rk inst.data k = false →
          alLookup (generateLoop cfg entropy rk L iB keys inst idx count).secret.data k =
            alLookup inst.data k) ∧
        (willGen rk inst.data k = true →
          ∃ v, generateRandomSecretValue cfg
              (entropy (idx + (keys.takeWhile (fun k2 => k2 != k)).countP
                (fun k2 => willGen rk inst.data k2)))
              inst.annotations L iB = Except.ok v ∧
            alLookup (generateLoop cfg entropy rk L iB keys inst idx count).secret.data k =
              some v)) := by
  intro keys
  induction keys with
  | nil =>
    intro inst idx count _
    exact ⟨rfl, by simp [generateLoop], fun k _ => rfl, fun k hk => absurd hk (by simp)⟩
  | cons key rest ih =>
    intro inst idx count hnd
    obtain ⟨hkey, hndr⟩ := List.nodup_cons.mp hnd
    have hstep : generateLoop cfg entropy rk L iB (key :: rest) inst idx count =
        (if (dataGet inst.data key).length ≠ 0 ∧ contains rk key = false then
          generateLoop cfg entropy rk L iB rest inst idx count
        else
          match generateRandomSecret cfg (entropy idx) inst key L iB with
          | .error e => ⟨inst, idx, count + 1, some e⟩
          | .ok inst2 =>
            generateLoop cfg entropy rk L iB rest inst2 (idx + 1) (count + 1)) := rfl
    by_cases hskip : (dataGet inst.data key).length ≠ 0 ∧ contains rk key = false
    · have hwg : willGen rk inst.data key = false := (willGen_false_iff rk inst.data key).mpr hskip
      rw [hstep, if_pos hskip]
      obtain ⟨iherr, ihcount, ihout, ihin⟩ := ih inst idx count hndr
      refine ⟨iherr, ?_, ?_, ?_⟩
      · rw [ihcount, List.countP_cons]
        simp [hwg]
      · intro k hk
        exact ihout k (fun hh => hk (List.mem_cons_of_mem _ hh))
      · intro k hk
        rcases List.mem_cons.mp hk with rfl | hkr
        · refine ⟨fun _ => ihout k hkey, fun htrue => ?_⟩
          rw [hwg] at htrue
          cases htrue
        · obtain ⟨ihf, iht⟩ := ihin k hkr
          have hkne : (key != k) = true := by
            have : key ≠ k := fun hh => hkey (hh ▸ hkr)
            simp [this]
          refine ⟨ihf, fun htrue => ?_⟩
          obtain ⟨v, hv, hl⟩ := iht htrue
          refine ⟨v, ?_, hl⟩
          have htw : List.takeWhile (fun k2 => k2 != k) (key :: rest) =
              key :: List.takeWhile (fun k2 => k2 != k) rest := by
            simp [List.takeWhile_cons, hkne]
          rw [htw, List.countP_cons]
          simpa [hwg] using hv
    · have hwg : willGen rk inst.data key = true := by
        cases hw : willGen rk inst.data key
        · exact absurd ((willGen_false_iff rk inst.data key).mp hw) hskip
        · rfl
      obtain ⟨b, hb⟩ := hent idx
      obtain ⟨v, hv⟩ := generateRandomSecretValue_ok cfg b inst.annotations L iB
      have hv2 : generateRandomSecretValue cfg (entropy idx) inst.annotations L iB =
          Except.ok v := by rw [hb]; exact hv
      have hgen : generateRandomSecret cfg (entropy idx) inst key L iB =
          Except.ok { inst with data := alInsert inst.data key v } := by
        simp only [generateRandomSecret, hv2]
      set inst2 : Secret := { inst with data := alInsert inst.data key v } with hinst2
      have hone : generateLoop cfg entropy rk L iB (key :: rest) inst idx count =
          generateLoop cfg entropy rk L iB rest inst2 (idx + 1) (count + 1) := by
        rw [hstep, if_neg hskip, hgen]
      rw [hone]
      obtain ⟨iherr, ihcount, ihout, ihin⟩ := ih inst2 (idx + 1) (count + 1) hndr
      have hdg : ∀ k2, k2 ≠ key → dataGet inst2.data k2 = dataGet inst.data k2 := by
        intro k2 h2
        simp only [hinst2, dataGet]
        rw [alLookup_alInsert_ne inst.data key k2 v h2]
      have hwg2 : ∀ k2, k2 ≠ key → willGen rk inst2.data k2 = willGen rk inst.data k2 := by
        intro k2 h2
        simp only [willGen, hdg k2 h2]
      refine ⟨iherr, ?_, ?_, ?_⟩
      · have hcntrest : rest.countP (fun k2 => willGen rk inst2.data k2) =
            rest.countP (fun k2 => willGen rk inst.data k2) :=
          List.countP_congr (fun x hx => by rw [hwg2 x (fun hh => hkey (hh ▸ hx))])
        rw [ihcount, hcntrest, List.countP_cons]
        simp [hwg]
        omega
      · intro k hk
        have hk1 : k ≠ key := fun hh => hk (hh ▸ List.mem_cons_self key rest)
        have hk2 : k ∉ rest := fun hh => hk (List.mem_cons_of_mem _ hh)
        rw [ihout k hk2]
        simp only [hinst2]
        exact alLookup_alInsert_ne inst.data key k v hk1
      · intro k hk
        rcases List.mem_cons.mp hk with rfl | hkr
        · refine ⟨fun hf => ?_, fun _ => ?_⟩
          · rw [hwg] at hf
            cases hf
          · refine ⟨v, ?_, ?_⟩
            · have htw : ((k :: rest).takeWhile (fun k2 => k2 != k)) = [] := by
                simp [List.takeWhile_cons]
              rw [htw]
              simpa using hv2
            · rw [ihout k hkey]
              simp only [hinst2]
              exact alLookup_alInsert_self inst.data k v
        · obtain ⟨ihf, iht⟩ := ihin k hkr
          have hkne2 : k ≠ key := fun hh => hkey (hh ▸ hkr)
          have hwgk : willGen rk inst2.data k = willGen rk inst.data k := hwg2 k hkne2
          refine ⟨fun hf => ?_, fun ht => ?_⟩
          · rw [ihf (by rw [hwgk]; exact hf)]
            simp only [hinst2]
            exact alLookup_alInsert_ne inst.data key k v hkne2
          · obtain ⟨v2, hv3, hl⟩ := iht (by rw [hwgk]; exact ht)
            refine ⟨v2, ?_, hl⟩
            have hkne3 : (key != k) = true := by
              have hne : ¬ key = k := fun hh => hkne2 hh.symm
              simp [hne]
            have htw : ((key :: rest).takeWhile (fun k2 => k2 != k)) =
                key :: rest.takeWhile (fun k2 => k2 != k) := by
              simp [List.takeWhile_cons, hkne3]
            have hcnt2 : (rest.takeWhile (fun k2 => k2 != k)).countP
                  (fun k2 => willGen rk inst2.data k2) =
                (rest.takeWhile (fun k2 => k2 != k)).countP
                  (fun k2 => willGen rk inst.data k2) :=
              List.countP_congr (fun x hx => by
                have hxr : x ∈ rest := (List.takeWhile_sublist _).subset hx
                rw [hwg2 x (fun hh => hkey (hh ▸ hxr))])
            rw [hcnt2] at hv3
            rw [htw, List.countP_cons]
            have harr : idx + ((rest.takeWhile (fun k2 => k2 != k)).countP
                  (fun k2 => willGen rk inst.data k2) +
                if willGen rk inst.data key = true then 1 else 0) =
                idx + 1 + (rest.takeWhile (fun k2 => k2 != k)).countP
                  (fun k2 => willGen rk inst.data k2) := by
              simp [hwg]
              omega
            rw [harr]
            exact hv3

/-- Characterization of the generation loop on failure, for a duplicate-free
key list: the list splits as a processed prefix, the failing key, and an
unreached remainder; every field of the prefix that was generated keeps the
newly written value from its pinned entropy call, every other field is
untouched, and the returned error is the failing field's generation error at
the next entropy call. -/
theorem generateLoop_err_char (cfg : Config) (entropy : Nat → Except String Bytes)
    (rk : List String) (L : Nat) (iB : Bool) :
    ∀ (keys : List String) (inst : Secret) (idx count : Nat) (e : String), keys.Nodup →
      (generateLoop cfg entropy rk L iB keys inst idx count).err = some e →
      ∃ done key2 rest2, keys = done ++ key2 :: rest2 ∧
        willGen rk inst.data key2 = true ∧
        generateRandomSecretValue cfg
          (entropy (idx + done.countP (fun k2 => willGen rk inst.data k2)))
          inst.annotations L iB = Except.error e ∧
        (∀ k ∈ done, willGen rk inst.data k = true →
          ∃ v, generateRandomSecretValue cfg
              (entropy (idx + (keys.takeWhile (fun k2 => k2 != k)).countP
                (fun k2 => willGen rk inst.data k2)))
              inst.annotations L iB = Except.ok v ∧
            alLookup (generateLoop cfg entropy rk L iB keys inst idx count).secret.data k =
              some v) ∧
        (∀ k ∈ done, willGen rk inst.data k = false →
          alLookup (generateLoop cfg entropy rk L iB keys inst idx count).secret.data k =
            alLookup inst.data k) ∧
        (∀ k, k ∉ done →
          alLookup (generateLoop cfg entropy rk L iB keys inst idx count).secret.data k =
            alLookup inst.data k) := by
  intro keys
  induction keys with
  | nil =>
    intro inst idx count e _ herr
    cases herr
  | cons key rest ih =>
    intro inst idx count e hnd herr
    obtain ⟨hkey, hndr⟩ := List.nodup_cons.mp hnd
    have hstep : generateLoop cfg entropy rk L iB (key :: rest) inst idx count =
        (if (dataGet inst.data key).length ≠ 0 ∧ contains rk key = false then
          generateLoop cfg entropy rk L iB rest inst idx count
        else
          match generateRandomSecret cfg (entropy idx) inst key L iB with
          | .error e2 => ⟨inst, idx, count + 1, some e2⟩
          | .ok inst2 =>
            generateLoop cfg entropy rk L iB rest inst2 (idx + 1) (count + 1)) := rfl
    by_cases hskip : (dataGet inst.data key).length ≠ 0 ∧ contains rk key = false
    · have hwg : willGen rk inst.data key = false := (willGen_false_iff rk inst.data key).mpr hskip
      rw [hstep, if_pos hskip] at herr ⊢
      obtain ⟨done, key2, rest2, hdec, hwgk2, herrv, hgen, hsk, hout⟩ :=
        ih inst idx count e hndr herr
      have hsub : ∀ k2, k2 ∈ done → k2 ∈ rest := by
        intro k2 hk2
        rw [hdec]
        exact List.mem_append.mpr (Or.inl hk2)
      refine ⟨key :: done, key2, rest2, by rw [List.cons_append, hdec], hwgk2, ?_, ?_, ?_, ?_⟩
      · have hcnt : (key :: done).countP (fun k2 => willGen rk inst.data k2) =
            done.countP (fun k2 => willGen rk inst.data k2) := by
          rw [List.countP_cons]
          simp [hwg]
        rw [hcnt]
        exact herrv
      · intro k hk htrue
        rcases List.mem_cons.mp hk with rfl | hkd
        · rw [hwg] at htrue
          cases htrue
        · obtain ⟨v, hv, hl⟩ := hgen k hkd htrue
          refine ⟨v, ?_, hl⟩
          have hkne : (key != k) = true := by
            have : ¬ key = k := fun hh => hkey (hh ▸ hsub k hkd)
            simp [this]
          have htw : List.takeWhile (fun k2 => k2 != k) (key :: rest) =
              key :: List.takeWhile (fun k2 => k2 != k) rest := by
            simp [List.takeWhile_cons, hkne]
          rw [htw, List.countP_cons]
          simpa [hwg] using hv
      · intro k hk hfalse
        rcases List.mem_cons.mp hk with rfl | hkd
        · exact hout k (fun hh => hkey (hsub k hh))
        · exact hsk k hkd hfalse
      · intro k hk
        exact hout k (fun hh => hk (List.mem_cons_of_mem _ hh))
    · have hwg : willGen rk inst.data key = true := by
        cases hw : willGen rk inst.data key
        · exact absurd ((willGen_false_iff rk inst.data key).mp hw) hskip
        · rfl
      cases hgenr : generateRandomSecret cfg (entropy idx) inst key L iB with
      | error egen =>
        have hone : generateLoop cfg entropy rk L iB (key :: rest) inst idx count =
            ⟨inst, idx, count + 1, some egen⟩ := by
          rw [hstep, if_neg hskip, hgenr]
        rw [hone] at herr ⊢
        have he : egen = e := by simpa using herr
        subst he
        refine ⟨[], key, rest, rfl, hwg, ?_, ?_, ?_, ?_⟩
        · simpa using (generateRandomSecret_error_iff cfg (entropy idx) inst key L iB egen).mp hgenr
        · intro k hk
          cases hk
        · intro k hk
          cases hk
        · intro k _
          rfl
      | ok instg =>
        obtain ⟨v, hv, rfl⟩ := (generateRandomSecret_ok_iff cfg _ inst key L iB instg).mp hgenr
        set inst2 : Secret := { inst with data := alInsert inst.data key v } with hinst2
        have hone : generateLoop cfg entropy rk L iB (key :: rest) inst idx count =
            generateLoop cfg entropy rk L iB rest inst2 (idx + 1) (count + 1) := by
          rw [hstep, if_neg hskip, hgenr]
        rw [hone] at herr ⊢
        obtain ⟨done, key2, rest2, hdec, hwgk2, herrv, hgen, hsk, hout⟩ :=
          ih inst2 (idx + 1) (count + 1) e hndr herr
        have hdg : ∀ k2, k2 ≠ key → dataGet inst2.data k2 = dataGet inst.data k2 := by
          intro k2 h2
          simp only [hinst2, dataGet]
          rw [alLookup_alInsert_ne inst.data key k2 v h2]
        have hwg2 : ∀ k2, k2 ≠ key → willGen rk inst2.data k2 = willGen rk inst.data k2 := by
          intro k2 h2
          simp only [willGen, hdg k2 h2]
        have hsub : ∀ k2, k2 ∈ done → k2 ∈ rest := by
          intro k2 hk2
          rw [hdec]
          exact List.mem_append.mpr (Or.inl hk2)
        have hnek : ∀ k2, k2 ∈ done → k2 ≠ key := by
          intro k2 hk2 hh
          exact hkey (hh ▸ hsub k2 hk2)
        have hcntd : done.countP (fun k2 => willGen rk inst2.data k2) =
            done.countP (fun k2 => willGen rk inst.data k2) :=
          List.countP_congr (fun x hx => by rw [hwg2 x (hnek x hx)])
        refine ⟨key :: done, key2, rest2, by rw [List.cons_append, hdec], ?_, ?_, ?_, ?_, ?_⟩
        · have hk2ne : key2 ≠ key := by
            intro hh
            apply hkey
            rw [← hh, hdec]
            exact List.mem_append.mpr (Or.inr (List.mem_cons_self key2 rest2))
          rw [← hwg2 key2 hk2ne]
          exact hwgk2
        · rw [hcntd] at herrv
          have hcnt : (key :: done).countP (fun k2 => willGen rk inst.data k2) =
              done.countP (fun k2 => willGen rk inst.data k2) + 1 := by
            rw [List.countP_cons]
            simp [hwg]
          rw [hcnt]
          have harith : idx + (done.countP (fun k2 => willGen rk inst.data k2) + 1) =
              idx + 1 + done.countP (fun k2 => willGen rk inst.data k2) := by omega
          rw [harith]
          exact herrv
        · intro k hk htrue
          rcases List.mem_cons.mp hk with rfl | hkd
          · refine ⟨v, ?_, ?_⟩
            · have htw : List.takeWhile (fun k2 => k2 != k) (k :: rest) = [] := by
                simp [List.takeWhile_cons]
              rw [htw]
              simpa using hv
            · rw [hout k (fun hh => hkey (hsub k hh))]
              simp only [hinst2]
              exact alLookup_alInsert_self inst.data k v
          · have hkne : k ≠ key := hnek k hkd
            obtain ⟨v2, hv2, hl2⟩ := hgen k hkd (by rw [hwg2 k hkne]; exact htrue)
            refine ⟨v2, ?_, hl2⟩
            have hkne3 : (key != k) = true := by
              have : ¬ key = k := fun hh => hkne hh.symm
              simp [this]
            have htw : List.takeWhile (fun k2 => k2 != k) (key :: rest) =
                key :: List.takeWhile (fun k2 => k2 != k) rest := by
              simp [List.takeWhile_cons, hkne3]
            have hcnt2 : (List.takeWhile (fun k2 => k2 != k) rest).countP
                  (fun k2 => willGen rk inst2.data k2) =
                (List.takeWhile (fun k2 => k2 != k) rest).countP
                  (fun k2 => willGen rk inst.data k2) :=
              List.countP_congr (fun x hx => by
                have hxr : x ∈ rest := (List.takeWhile_sublist _).subset hx
                rw [hwg2 x (fun hh => hkey (hh ▸ hxr))])
            rw [hcnt2] at hv2
            rw [htw, List.countP_cons]
            have harith : idx + ((List.takeWhile (fun k2 => k2 != k) rest).countP
                  (fun k2 => willGen rk inst.data k2) +
                if willGen rk inst.data key = true then 1 else 0) =
                idx + 1 + (List.takeWhile (fun k2 => k2 != k) rest).countP
                  (fun k2 => willGen rk inst.data k2) := by
              simp [hwg]
              omega
            rw [harith]
            exact hv2
        · intro k hk hfalse
          rcases List.mem_cons.mp hk with rfl | hkd
          · rw [hwg] at hfalse
            cases hfalse
          · have hkne : k ≠ key := hnek k hkd
            rw [hsk k hkd (by rw [hwg2 k hkne]; exact hfalse)]
            simp only [hinst2]
            exact alLookup_alInsert_ne inst.data key k v hkne
        · intro k hk
          have hk1 : k ≠ key := fun hh => hk (hh ▸ List.mem_cons_self key done)
          have hk2 : k ∉ done := fun hh => hk (List.mem_cons_of_mem _ hh)
          rw [hout k hk2]
          simp only [hinst2]
          exact alLookup_alInsert_ne inst.data key k v hk1

theorem computeRegenKeys_data (cfg : Config) (inst : Secret) (genKeys : List String) :
    (computeRegenKeys cfg inst genKeys).1.data = inst.data := by
  by_cases h1 : (alLookup inst.annotations AnnotationSecretSecure).isNone ∧ RegenerateInsecure cfg
  · simp only [computeRegenKeys, if_pos h1]
  · simp only [computeRegenKeys, if_neg h1]
    cases hr : alLookup inst.annotations AnnotationSecretRegenerate with
    | none => rfl
    | some regenerate =>
      by_cases hy : regenerate = "yes" <;> simp [hy]

theorem computeRegenKeys_ann_lookup (cfg : Config) (inst : Secret) (genKeys : List String)
    (k : String) (hk : k ≠ AnnotationSecretRegenerate) :
    alLookup (computeRegenKeys cfg inst genKeys).1.annotations k =
      alLookup inst.annotations k := by
  by_cases h1 : (alLookup inst.annotations AnnotationSecretSecure).isNone ∧ RegenerateInsecure cfg
  · simp only [computeRegenKeys, if_pos h1]
  · simp only [computeRegenKeys, if_neg h1]
    cases hr : alLookup inst.annotations AnnotationSecretRegenerate with
    | none => rfl
    | some regenerate =>
      by_cases hy : regenerate = "yes" <;>
        simp [hy, alLookup_alErase_ne inst.annotations AnnotationSecretRegenerate k hk]

theorem generateData_eq_of_unique (cfg : Config) (entropy : Nat → Except String Bytes)
    (inst : Secret)
    (h : ensureUniqueness (stringsSplit ( annGet inst.annotations AnnotationSecretAutoGenerate) ',') =
      Except.ok ()) :
    generateData cfg entropy inst =
      regenerateKeysWhereRequired cfg entropy inst
        (stringsSplit ( annGet inst.annotations AnnotationSecretAutoGenerate) ',') := by
  simp only [generateData, h]

/-- Characterization of regenerateKeysWhereRequired when the key list has no
duplicates, every entropy read succeeds and the length annotation parses:
no error, empty requeue directive, undeclared fields untouched, skipped
fields kept, generated fields hold freshly produced values, and the secure
marker is set exactly when every declared field was generated. -/
theorem regenerateKeysWhereRequired_char (cfg : Config)
    (entropy : Nat → Except String Bytes) (inst : Secret) (genKeys : List String)
    (hnd : genKeys.Nodup) (hent : ∀ j, ∃ b, entropy j = Except.ok b) (L : Nat) (iB : Bool)
    (hparse : ParseByteLength (DefaultLength cfg)
        ( GetLengthFromAnnotation (DefaultLength cfg)
          (computeRegenKeys cfg inst genKeys).1.annotations) = (L, iB, none)) :
    (regenerateKeysWhereRequired cfg entropy inst genKeys).err = none ∧
    (regenerateKeysWhereRequired cfg entropy inst genKeys).res = {} ∧
    (∀ k, k ∉ genKeys →
      alLookup (regenerateKeysWhereRequired cfg entropy inst genKeys).secret.data k =
        alLookup inst.data k) ∧
    (∀ k ∈ genKeys,
      (willGen (computeRegenKeys cfg inst genKeys).2 inst.data k = false →
        alLookup (regenerateKeysWhereRequired cfg entropy inst genKeys).secret.data k =
          alLookup inst.data k) ∧
      (willGen (computeRegenKeys cfg inst genKeys).2 inst.data k = true →
        ∃ v, generateRandomSecretValue cfg
            (entropy ((genKeys.takeWhile (fun k2 => k2 != k)).countP
              (fun k2 => willGen (computeRegenKeys cfg inst genKeys).2 inst.data k2)))
            (computeRegenKeys cfg inst genKeys).1.annotations L iB = Except.ok v ∧
          alLookup (regenerateKeysWhereRequired cfg entropy inst genKeys).secret.data k =
            some v)) ∧
    (regenerateKeysWhereRequired cfg entropy inst genKeys).secret.annotations =
      (if genKeys.countP (fun k2 => willGen (computeRegenKeys cfg inst genKeys).2 inst.data k2) =
          genKeys.length then
        alInsert (computeRegenKeys cfg inst genKeys).1.annotations AnnotationSecretSecure "yes"
      else (computeRegenKeys cfg inst genKeys).1.annotations) := by
  have hdata1 : (computeRegenKeys cfg inst genKeys).1.data = inst.data :=
    computeRegenKeys_data cfg inst genKeys
  obtain ⟨herr, hcount, hout, hin⟩ :=
    generateLoop_char cfg entropy (computeRegenKeys cfg inst genKeys).2 L iB hent genKeys
      (computeRegenKeys cfg inst genKeys).1 0 0 hnd
  obtain ⟨hannl, -⟩ :=
    generateLoop_inv cfg entropy (computeRegenKeys cfg inst genKeys).2 L iB genKeys
      (computeRegenKeys cfg inst genKeys).1 0 0
  rw [hdata1] at hcount hout hin
  rcases hlo : generateLoop cfg entropy (computeRegenKeys cfg inst genKeys).2 L iB genKeys
      (computeRegenKeys cfg inst genKeys).1 0 0 with ⟨s2, i2, c2, e2⟩
  rw [hlo] at herr hcount hout hin hannl
  simp only at herr hcount hout hin hannl
  subst herr
  have hred : regenerateKeysWhereRequired cfg entropy inst genKeys =
      (if c2 = genKeys.length then
        { secret := { s2 with
            annotations := alInsert s2.annotations AnnotationSecretSecure "yes" },
          res := {}, err := none }
      else { secret := s2, res := {}, err := none }) := by
    simp only [regenerateKeysWhereRequired, hparse, hlo]
    by_cases hc : c2 = genKeys.length <;> simp [hc]
  rw [hred]
  by_cases hc : c2 = genKeys.length
  · rw [if_pos hc]
    rw [hcount] at hc
    simp only [Nat.zero_add] at hc
    refine ⟨rfl, rfl, ?_, ?_, ?_⟩
    · intro k hk
      exact hout k hk
    · intro k hk
      obtain ⟨hf, ht⟩ := hin k hk
      refine ⟨hf, fun htrue => ?_⟩
      obtain ⟨v, hv, hl⟩ := ht htrue
      rw [Nat.zero_add] at hv
      exact ⟨v, hv, hl⟩
    · rw [if_pos hc]
      simp only [hannl]
  · rw [if_neg hc]
    rw [hcount] at hc
    simp only [Nat.zero_add] at hc
    refine ⟨rfl, rfl, ?_, ?_, ?_⟩
    · intro k hk
      exact hout k hk
    · intro k hk
      obtain ⟨hf, ht⟩ := hin k hk
      refine ⟨hf, fun htrue => ?_⟩
      obtain ⟨v, hv, hl⟩ := ht htrue
      rw [Nat.zero_add] at hv
      exact ⟨v, hv, hl⟩
    · rw [if_neg hc]
      exact hannl

/-- A resource with no regeneration markers and all declared fields already
non-empty is a fixpoint of generateData: the pass changes nothing. -/
theorem generateData_fixpoint (cfg : Config) (entropy : Nat → Except String Bytes)
    (s : Secret)
    (hsec : ¬((alLookup s.annotations AnnotationSecretSecure).isNone ∧ RegenerateInsecure cfg))
    (hreg : alLookup s.annotations AnnotationSecretRegenerate = none)
    (hall : ∀ k ∈ stringsSplit ( annGet s.annotations AnnotationSecretAutoGenerate) ',',
      (dataGet s.data k).length ≠ 0) :
    (generateData cfg entropy s).secret = s := by
  have hcrk : computeRegenKeys cfg s
      (stringsSplit ( annGet s.annotations AnnotationSecretAutoGenerate) ',') = (s, []) := by
    simp only [computeRegenKeys, if_neg hsec, hreg]
  cases hu : ensureUniqueness (stringsSplit ( annGet s.annotations AnnotationSecretAutoGenerate) ',') with
  | error e => simp only [generateData, hu]
  | ok u =>
    cases u
    rw [generateData_eq_of_unique cfg entropy s hu]
    simp only [regenerateKeysWhereRequired, hcrk]
    rcases hp : ParseByteLength (DefaultLength cfg)
        ( GetLengthFromAnnotation (DefaultLength cfg) s.annotations) with ⟨L, iB, e⟩
    cases e with
    | some e2 => simp
    | none =>
      have hloop := generateLoop_skip_all cfg entropy [] L iB
        (stringsSplit ( annGet s.annotations AnnotationSecretAutoGenerate) ',') s 0 0
        (fun k hk => ⟨hall k hk, rfl⟩)
      have hlen : (stringsSplit ( annGet s.annotations AnnotationSecretAutoGenerate) ',').length ≠ 0 := by
        intro hh
        exact stringsSplit_ne_nil _ _ (List.length_eq_zero.mp hh)
      simp [hloop, Ne.symm hlen]

theorem generateData_res_of_ok (cfg : Config) (entropy : Nat → Except String Bytes)
    (s : Secret) (h : (generateData cfg entropy s).err = none) :
    (generateData cfg entropy s).res = {} := by
  cases hu : ensureUniqueness (stringsSplit ( annGet s.annotations AnnotationSecretAutoGenerate) ',') with
  | error e => simp [generateData, hu] at h
  | ok u =>
    cases u
    rw [generateData_eq_of_unique cfg entropy s hu] at h ⊢
    rcases hp : ParseByteLength (DefaultLength cfg)
        ( GetLengthFromAnnotation (DefaultLength cfg)
          (computeRegenKeys cfg s
            (stringsSplit ( annGet s.annotations AnnotationSecretAutoGenerate) ',')).1.annotations)
      with ⟨L, iB, e⟩
    cases e with
    | some e2 => simp [regenerateKeysWhereRequired, hp] at h
    | none =>
      rcases hlo : generateLoop cfg entropy
          (computeRegenKeys cfg s
            (stringsSplit ( annGet s.annotations AnnotationSecretAutoGenerate) ',')).2 L iB
          (stringsSplit ( annGet s.annotations AnnotationSecretAutoGenerate) ',')
          (computeRegenKeys cfg s
            (stringsSplit ( annGet s.annotations AnnotationSecretAutoGenerate) ',')).1 0 0
        with ⟨s2, i2, c2, e2⟩
      cases e2 with
      | some e3 => simp [regenerateKeysWhereRequired, hp, hlo] at h
      | none => simp [regenerateKeysWhereRequired, hp, hlo]

/-- When the pass fails after successful validation and length parsing, the
error came from a field generation: the requeue directive requests a
30-second delay, the declared list splits as a processed prefix, the failing
field, and an unreached remainder; every field of the prefix that was
generated earlier in the same pass keeps its newly written value, every
other field is untouched, and the returned error is the failing field's
generation error. -/
theorem generateData_err_char (cfg : Config) (entropy : Nat → Except String Bytes)
    (s : Secret) (e : String) (L : Nat) (iB : Bool)
    (hu : ensureUniqueness (stringsSplit ( annGet s.annotations AnnotationSecretAutoGenerate) ',') =
      Except.ok ())
    (hparse : ParseByteLength (DefaultLength cfg)
        ( GetLengthFromAnnotation (DefaultLength cfg)
          (computeRegenKeys cfg s
            (stringsSplit ( annGet s.annotations AnnotationSecretAutoGenerate) ',')).1.annotations) =
      (L, iB, none))
    (herr : (generateData cfg entropy s).err = some e) :
    (generateData cfg entropy s).res = { requeue := false, requeueAfter := 30 } ∧
    ∃ done key2 rest2,
      stringsSplit ( annGet s.annotations AnnotationSecretAutoGenerate) ',' =
        done ++ key2 :: rest2 ∧
      willGen (computeRegenKeys cfg s
        (stringsSplit ( annGet s.annotations AnnotationSecretAutoGenerate) ',')).2 s.data key2 =
        true ∧
      generateRandomSecretValue cfg
        (entropy (done.countP (fun k2 => willGen (computeRegenKeys cfg s
          (stringsSplit ( annGet s.annotations AnnotationSecretAutoGenerate) ',')).2 s.data k2)))
        (computeRegenKeys cfg s
          (stringsSplit ( annGet s.annotations AnnotationSecretAutoGenerate) ',')).1.annotations
        L iB = Except.error e ∧
      (∀ k ∈ done, willGen (computeRegenKeys cfg s
          (stringsSplit ( annGet s.annotations AnnotationSecretAutoGenerate) ',')).2 s.data k =
          true →
        ∃ v, generateRandomSecretValue cfg
            (entropy (((stringsSplit ( annGet s.annotations AnnotationSecretAutoGenerate) ',').takeWhile
              (fun k2 => k2 != k)).countP
              (fun k2 => willGen (computeRegenKeys cfg s
                (stringsSplit ( annGet s.annotations AnnotationSecretAutoGenerate) ',')).2 s.data k2)))
            (computeRegenKeys cfg s
              (stringsSplit ( annGet s.annotations AnnotationSecretAutoGenerate) ',')).1.annotations
            L iB = Except.ok v ∧
          alLookup (generateData cfg entropy s).secret.data k = some v) ∧
      (∀ k ∈ done, willGen (computeRegenKeys cfg s
          (stringsSplit ( annGet s.annotations AnnotationSecretAutoGenerate) ',')).2 s.data k =
          false →
        alLookup (generateData cfg entropy s).secret.data k = alLookup s.data k) ∧
      (∀ k, k ∉ done →
        alLookup (generateData cfg entropy s).secret.data k = alLookup s.data k) := by
  have hnd := (ensureUniqueness_ok_iff _).mp hu
  rw [generateData_eq_of_unique cfg entropy s hu] at herr ⊢
  rcases hlo : generateLoop cfg entropy
      (computeRegenKeys cfg s
        (stringsSplit ( annGet s.annotations AnnotationSecretAutoGenerate) ',')).2 L iB
      (stringsSplit ( annGet s.annotations AnnotationSecretAutoGenerate) ',')
      (computeRegenKeys cfg s
        (stringsSplit ( annGet s.annotations AnnotationSecretAutoGenerate) ',')).1 0 0
    with ⟨s2, i2, c2, e2⟩
  cases e2 with
  | none =>
    simp only [regenerateKeysWhereRequired, hparse, hlo] at herr
    by_cases hc : c2 =
        (stringsSplit ( annGet s.annotations AnnotationSecretAutoGenerate) ',').length <;>
      simp [hc] at herr
  | some e3 =>
    have hlerr : (generateLoop cfg entropy
        (computeRegenKeys cfg s
          (stringsSplit ( annGet s.annotations AnnotationSecretAutoGenerate) ',')).2 L iB
        (stringsSplit ( annGet s.annotations AnnotationSecretAutoGenerate) ',')
        (computeRegenKeys cfg s
          (stringsSplit ( annGet s.annotations AnnotationSecretAutoGenerate) ',')).1 0 0).err =
        some e3 := by rw [hlo]
    obtain ⟨done, key2, rest2, hdec, hwgk2, herrv, hgen, hsk, hout⟩ :=
      generateLoop_err_char cfg entropy
        (computeRegenKeys cfg s
          (stringsSplit ( annGet s.annotations AnnotationSecretAutoGenerate) ',')).2 L iB
        (stringsSplit ( annGet s.annotations AnnotationSecretAutoGenerate) ',')
        (computeRegenKeys cfg s
          (stringsSplit ( annGet s.annotations AnnotationSecretAutoGenerate) ',')).1 0 0 e3
        hnd hlerr
    rw [computeRegenKeys_data cfg s
      (stringsSplit ( annGet s.annotations AnnotationSecretAutoGenerate) ',')]
      at hwgk2 herrv hgen hsk hout
    rw [hlo] at hgen hsk hout
    simp only [Nat.zero_add] at herrv hgen
    simp only [regenerateKeysWhereRequired, hparse, hlo] at herr ⊢
    have he : e3 = e := by simpa using herr
    subst he
    exact ⟨trivial, done, key2, rest2, hdec, hwgk2, herrv, hgen, hsk, hout⟩

/-- generateData can change the annotation map only at the regenerate and
secure keys. -/
theorem generateData_ann_lookup (cfg : Config) (entropy : Nat → Except String Bytes)
    (s : Secret) (k : String) (h1 : k ≠ AnnotationSecretRegenerate)
    (h2 : k ≠ AnnotationSecretSecure) :
    alLookup (generateData cfg entropy s).secret.annotations k =
      alLookup s.annotations k := by
  cases hu : ensureUniqueness (stringsSplit ( annGet s.annotations AnnotationSecretAutoGenerate) ',') with
  | error e => simp [generateData, hu]
  | ok u =>
    cases u
    rw [generateData_eq_of_unique cfg entropy s hu]
    have hcrk := computeRegenKeys_ann_lookup cfg s
      (stringsSplit ( annGet s.annotations AnnotationSecretAutoGenerate) ',') k h1
    obtain ⟨hannl, -⟩ := generateLoop_inv cfg entropy
      (computeRegenKeys cfg s
        (stringsSplit ( annGet s.annotations AnnotationSecretAutoGenerate) ',')).2
      (ParseByteLength (DefaultLength cfg)
        ( GetLengthFromAnnotation (DefaultLength cfg)
          (computeRegenKeys cfg s
            (stringsSplit ( annGet s.annotations AnnotationSecretAutoGenerate) ',')).1.annotations)).1
      (ParseByteLength (DefaultLength cfg)
        ( GetLengthFromAnnotation (DefaultLength cfg)
          (computeRegenKeys cfg s
            (stringsSplit ( annGet s.annotations AnnotationSecretAutoGenerate) ',')).1.annotations)).2.1
      (stringsSplit ( annGet s.annotations AnnotationSecretAutoGenerate) ',')
      (computeRegenKeys cfg s
        (stringsSplit ( annGet s.annotations AnnotationSecretAutoGenerate) ',')).1 0 0
    rcases hp : ParseByteLength (DefaultLength cfg)
        ( GetLengthFromAnnotation (DefaultLength cfg)
          (computeRegenKeys cfg s
            (stringsSplit ( annGet s.annotations AnnotationSecretAutoGenerate) ',')).1.annotations)
      with ⟨L, iB, e⟩
    rw [hp] at hannl
    simp only at hannl
    cases e with
    | some e2 =>
      simp only [regenerateKeysWhereRequired, hp]
      exact hcrk
    | none =>
      rcases hlo : generateLoop cfg entropy
          (computeRegenKeys cfg s
            (stringsSplit ( annGet s.annotations AnnotationSecretAutoGenerate) ',')).2 L iB
          (stringsSplit ( annGet s.annotations AnnotationSecretAutoGenerate) ',')
          (computeRegenKeys cfg s
            (stringsSplit ( annGet s.annotations AnnotationSecretAutoGenerate) ',')).1 0 0
        with ⟨s2, i2, c2, e2⟩
      rw [hlo] at hannl
      simp only at hannl
      cases e2 with
      | some e3 =>
        simp only [regenerateKeysWhereRequired, hp, hlo]
        rw [hannl]
        exact hcrk
      | none =>
        simp only [regenerateKeysWhereRequired, hp, hlo]
        by_cases hc : c2 =
            (stringsSplit ( annGet s.annotations AnnotationSecretAutoGenerate) ',').length
        · simp only [hc, if_pos]
          rw [alLookup_alInsert_ne s2.annotations AnnotationSecretSecure k "yes" h2, hannl]
          exact hcrk
        · simp only [if_neg hc]
          rw [hannl]
          exact hcrk

theorem needsUpdate_true_of_ann (inst desired : Secret) (k : String)
    (h : alLookup inst.annotations k ≠ alLookup desired.annotations k) :
    needsUpdate inst desired = true := by
  cases hm : mapEqB inst.annotations desired.annotations with
  | true => exact absurd ((mapEqB_true_iff _ _).mp hm k) h
  | false => simp [needsUpdate, hm]

theorem willGen_true_iff (rk : List String) (d : DataMap) (k : String) :
    willGen rk d k = true ↔ ((dataGet d k).length = 0 ∨ contains rk k = true) := by
  simp [willGen, Bool.or_eq_true]

/-- C2 (confirmed): for every length n and every encoding among base64,
base64url, base32, hex and the empty default, GenerateRandomString with
isRawByteLength = false returns, on success, an encoded string of exactly n
characters. -/
theorem generateRandomString_char_length (b : Bytes) (n : Nat) (enc : String)
    (hb : b.length = n)
    (henc : enc = "base64" ∨ enc = "base64url" ∨ enc = "base32" ∨ enc = "hex" ∨ enc = "") :
    ∃ out, GenerateRandomString (Except.ok b) n enc false = Except.ok out ∧
      out.length = n := by
  subst hb
  have h64 : ∀ u : Bool, b.length ≤ (base64Encode u b).length := by
    intro u
    rw [base64Encode_length]
    omega
  have h32 : b.length ≤ (base32Encode b).length := by
    rw [base32Encode_length]
    omega
  have hhex : b.length ≤ (hexEncode b).length := by
    rw [hexEncode_length]
    omega
  rcases henc with rfl | rfl | rfl | rfl | rfl
  · exact ⟨_, rfl, by have h := h64 false; simp [List.length_take]; omega⟩
  · exact ⟨_, rfl, by have h := h64 true; simp [List.length_take]; omega⟩
  · exact ⟨_, rfl, by simp [List.length_take]; omega⟩
  · exact ⟨_, rfl, by simp [List.length_take]; omega⟩
  · exact ⟨_, rfl, by have h := h64 false; simp [List.length_take]; omega⟩

/-- C2 witness: a concrete run with hex encoding and length 3. -/
theorem generateRandomString_char_length_witness :
    ∃ out, GenerateRandomString (Except.ok [0, 0, 0]) 3 "hex" false = Except.ok out ∧
      out.length = 3 :=
  generateRandomString_char_length [0, 0, 0] 3 "hex" rfl
    (Or.inr (Or.inr (Or.inr (Or.inl rfl))))

/-- C8 (confirmed): with encoding "raw" the n random bytes read are
returned unmodified, with no truncation, regardless of the byte-length
flag. -/
theorem generateRandomString_raw (b : Bytes) (n : Nat) (lb : Bool) (_hb : b.length = n) :
    GenerateRandomString (Except.ok b) n "raw" lb = Except.ok b := rfl

/-- C8 witness: a concrete raw run of two bytes. -/
theorem generateRandomString_raw_witness :
    GenerateRandomString (Except.ok [7, 8]) 2 "raw" true = Except.ok [7, 8] :=
  generateRandomString_raw [7, 8] 2 true rfl

/-- C4 (confirmed): a duplicate field name in the split autogenerate list
makes generateData return an error and leave the data map and annotation
map exactly as they were. -/
theorem generateData_duplicate_error (cfg : Config) (entropy : Nat → Except String Bytes)
    (s : Secret)
    (hdup : ¬ (stringsSplit ( annGet s.annotations AnnotationSecretAutoGenerate) ',').Nodup) :
    (∃ e, (generateData cfg entropy s).err = some e) ∧
    (generateData cfg entropy s).secret.data = s.data ∧
    (generateData cfg entropy s).secret.annotations = s.annotations := by
  cases hu : ensureUniqueness (stringsSplit ( annGet s.annotations AnnotationSecretAutoGenerate) ',') with
  | ok u =>
    cases u
    exact absurd ((ensureUniqueness_ok_iff _).mp hu) hdup
  | error e =>
    refine ⟨⟨e, ?_⟩, ?_, ?_⟩ <;> simp [generateData, hu]

/-- C4 witness: list "a,a". -/
theorem generateData_duplicate_error_witness :
    (∃ e, (generateData ⟨false, 4, ""⟩ (fun _ => Except.ok [0])
        ⟨[], [(AnnotationSecretAutoGenerate, "a,a")]⟩).err = some e) ∧
    (generateData ⟨false, 4, ""⟩ (fun _ => Except.ok [0])
        ⟨[], [(AnnotationSecretAutoGenerate, "a,a")]⟩).secret.data = [] ∧
    (generateData ⟨false, 4, ""⟩ (fun _ => Except.ok [0])
        ⟨[], [(AnnotationSecretAutoGenerate, "a,a")]⟩).secret.annotations =
      [(AnnotationSecretAutoGenerate, "a,a")] :=
  generateData_duplicate_error ⟨false, 4, ""⟩ (fun _ => Except.ok [0])
    ⟨[], [(AnnotationSecretAutoGenerate, "a,a")]⟩ (by decide)

/-- C6 (confirmed): on a resource whose declared fields are all non-empty,
with no regenerate-request annotation and no insecure-regeneration forcing,
a second generateData run changes nothing relative to the first and the
controller's diff predicate is false, so persistence is skipped. -/
theorem generateData_idempotent (cfg : Config) (e1 e2 : Nat → Except String Bytes)
    (s : Secret)
    (hsec : ¬((alLookup s.annotations AnnotationSecretSecure).isNone ∧ RegenerateInsecure cfg))
    (hreg : alLookup s.annotations AnnotationSecretRegenerate = none)
    (hall : ∀ k ∈ stringsSplit ( annGet s.annotations AnnotationSecretAutoGenerate) ',',
      (dataGet s.data k).length ≠ 0) :
    (generateData cfg e2 (generateData cfg e1 s).secret).secret.data =
      (generateData cfg e1 s).secret.data ∧
    (generateData cfg e2 (generateData cfg e1 s).secret).secret.annotations =
      (generateData cfg e1 s).secret.annotations ∧
    needsUpdate (generateData cfg e1 s).secret
      (generateData cfg e2 (generateData cfg e1 s).secret).secret = false := by
  have h1 := generateData_fixpoint cfg e1 s hsec hreg hall
  have h2 := generateData_fixpoint cfg e2 s hsec hreg hall
  rw [h1, h2]
  exact ⟨rfl, rfl, by simp [needsUpdate, mapEqB_refl]⟩

/-- C6 witness: declared field "x" already populated, distinct entropy
sources for the two runs. -/
theorem generateData_idempotent_witness :
    (generateData ⟨false, 4, ""⟩ (fun _ => Except.ok [1])
        (generateData ⟨false, 4, ""⟩ (fun _ => Except.ok [0])
          ⟨[("x", [118])], [(AnnotationSecretAutoGenerate, "x")]⟩).secret).secret.data =
      (generateData ⟨false, 4, ""⟩ (fun _ => Except.ok [0])
        ⟨[("x", [118])], [(AnnotationSecretAutoGenerate, "x")]⟩).secret.data ∧
    (generateData ⟨false, 4, ""⟩ (fun _ => Except.ok [1])
        (generateData ⟨false, 4, ""⟩ (fun _ => Except.ok [0])
          ⟨[("x", [118])], [(AnnotationSecretAutoGenerate, "x")]⟩).secret).secret.annotations =
      (generateData ⟨false, 4, ""⟩ (fun _ => Except.ok [0])
        ⟨[("x", [118])], [(AnnotationSecretAutoGenerate, "x")]⟩).secret.annotations ∧
    needsUpdate (generateData ⟨false, 4, ""⟩ (fun _ => Except.ok [0])
        ⟨[("x", [118])], [(AnnotationSecretAutoGenerate, "x")]⟩).secret
      (generateData ⟨false, 4, ""⟩ (fun _ => Except.ok [1])
        (generateData ⟨false, 4, ""⟩ (fun _ => Except.ok [0])
          ⟨[("x", [118])], [(AnnotationSecretAutoGenerate, "x")]⟩).secret).secret = false :=
  generateData_idempotent ⟨false, 4, ""⟩ (fun _ => Except.ok [0]) (fun _ => Except.ok [1])
    ⟨[("x", [118])], [(AnnotationSecretAutoGenerate, "x")]⟩
    (by decide) (by decide) (by decide)

/-- C7 (confirmed): a successful generateData pass returns the zero-value
requeue directive and no error; a pass failing after validation and length
parsing (a field-generation failure) returns that error with a 30-second
requeue directive, the declared list splits as a processed prefix, the
failing field, and an unreached remainder, and every field generated
earlier in the same pass keeps its newly written value in the in-memory
resource while all other fields are untouched — partial progress is kept,
not rolled back. -/
theorem generateData_retry_directive (cfg : Config) (entropy : Nat → Except String Bytes)
    (s : Secret) (L : Nat) (iB : Bool)
    (hu : ensureUniqueness (stringsSplit ( annGet s.annotations AnnotationSecretAutoGenerate) ',') =
      Except.ok ())
    (hparse : ParseByteLength (DefaultLength cfg)
        ( GetLengthFromAnnotation (DefaultLength cfg)
          (computeRegenKeys cfg s
            (stringsSplit ( annGet s.annotations AnnotationSecretAutoGenerate) ',')).1.annotations) =
      (L, iB, none)) :
    ((generateData cfg entropy s).err = none → (generateData cfg entropy s).res = {}) ∧
    (∀ e, (generateData cfg entropy s).err = some e →
      (generateData cfg entropy s).res = { requeue := false, requeueAfter := 30 } ∧
      ∃ done key2 rest2,
        stringsSplit ( annGet s.annotations AnnotationSecretAutoGenerate) ',' =
          done ++ key2 :: rest2 ∧
        willGen (computeRegenKeys cfg s
          (stringsSplit ( annGet s.annotations AnnotationSecretAutoGenerate) ',')).2 s.data key2 =
          true ∧
        generateRandomSecretValue cfg
          (entropy (done.countP (fun k2 => willGen (computeRegenKeys cfg s
            (stringsSplit ( annGet s.annotations AnnotationSecretAutoGenerate) ',')).2 s.data k2)))
          (computeRegenKeys cfg s
            (stringsSplit ( annGet s.annotations AnnotationSecretAutoGenerate) ',')).1.annotations
          L iB = Except.error e ∧
        (∀ k ∈ done, willGen (computeRegenKeys cfg s
            (stringsSplit ( annGet s.annotations AnnotationSecretAutoGenerate) ',')).2 s.data k =
            true →
          ∃ v, generateRandomSecretValue cfg
              (entropy (((stringsSplit ( annGet s.annotations AnnotationSecretAutoGenerate) ',').takeWhile
                (fun k2 => k2 != k)).countP
                (fun k2 => willGen (computeRegenKeys cfg s
                  (stringsSplit ( annGet s.annotations AnnotationSecretAutoGenerate) ',')).2 s.data k2)))
              (computeRegenKeys cfg s
                (stringsSplit ( annGet s.annotations AnnotationSecretAutoGenerate) ',')).1.annotations
              L iB = Except.ok v ∧
            alLookup (generateData cfg entropy s).secret.data k = some v) ∧
        (∀ k ∈ done, willGen (computeRegenKeys cfg s
            (stringsSplit ( annGet s.annotations AnnotationSecretAutoGenerate) ',')).2 s.data k =
            false →
          alLookup (generateData cfg entropy s).secret.data k = alLookup s.data k) ∧
        (∀ k, k ∉ done →
          alLookup (generateData cfg entropy s).secret.data k = alLookup s.data k)) :=
  ⟨fun h => generateData_res_of_ok cfg entropy s h,
   fun e he => generateData_err_char cfg entropy s e L iB hu hparse he⟩

/-- C7 witness: entropy failure on field "x" yields the 30-second requeue
directive. -/
theorem generateData_retry_directive_witness :
    (generateData ⟨false, 4, ""⟩ (fun _ => Except.error "boom")
        ⟨[], [(AnnotationSecretAutoGenerate, "x")]⟩).res =
      { requeue := false, requeueAfter := 30 } :=
  ((generateData_retry_directive ⟨false, 4, ""⟩ (fun _ => Except.error "boom")
      ⟨[], [(AnnotationSecretAutoGenerate, "x")]⟩ 4 false rfl (by decide)).2
    "boom" (by decide)).1

/-- C3 (confirmed): a declared field with a non-empty stored value that is
not in the regeneration set computed for the pass keeps its value under
generateData, and every other declared field receives a freshly generated
value. -/
theorem generateData_preserves_and_generates (cfg : Config)
    (entropy : Nat → Except String Bytes) (s : Secret) (L : Nat) (iB : Bool)
    (hu : ensureUniqueness (stringsSplit ( annGet s.annotations AnnotationSecretAutoGenerate) ',') =
      Except.ok ())
    (hent : ∀ j, ∃ b, entropy j = Except.ok b)
    (hparse : ParseByteLength (DefaultLength cfg)
        ( GetLengthFromAnnotation (DefaultLength cfg)
          (computeRegenKeys cfg s
            (stringsSplit ( annGet s.annotations AnnotationSecretAutoGenerate) ',')).1.annotations) =
      (L, iB, none)) :
    ∀ k ∈ stringsSplit ( annGet s.annotations AnnotationSecretAutoGenerate) ',',
      ((dataGet s.data k).length ≠ 0 ∧
          contains (computeRegenKeys cfg s
            (stringsSplit ( annGet s.annotations AnnotationSecretAutoGenerate) ',')).2 k = false →
        alLookup (generateData cfg entropy s).secret.data k = alLookup s.data k) ∧
      ((dataGet s.data k).length = 0 ∨
          contains (computeRegenKeys cfg s
            (stringsSplit ( annGet s.annotations AnnotationSecretAutoGenerate) ',')).2 k = true →
        ∃ v, generateRandomSecretValue cfg
            (entropy (((stringsSplit ( annGet s.annotations AnnotationSecretAutoGenerate) ',').takeWhile
                (fun k2 => k2 != k)).countP
              (fun k2 => willGen (computeRegenKeys cfg s
                (stringsSplit ( annGet s.annotations AnnotationSecretAutoGenerate) ',')).2 s.data k2)))
            (computeRegenKeys cfg s
              (stringsSplit ( annGet s.annotations AnnotationSecretAutoGenerate) ',')).1.annotations
            L iB = Except.ok v ∧
          alLookup (generateData cfg entropy s).secret.data k = some v) := by
  intro k hk
  have hnd := (ensureUniqueness_ok_iff _).mp hu
  obtain ⟨-, -, -, hin, -⟩ :=
    regenerateKeysWhereRequired_char cfg entropy s _ hnd hent L iB hparse
  rw [generateData_eq_of_unique cfg entropy s hu]
  obtain ⟨hf, ht⟩ := hin k hk
  exact ⟨fun hcond => hf ((willGen_false_iff _ _ _).mpr hcond),
         fun hcond => ht ((willGen_true_iff _ _ _).mpr hcond)⟩

/-- C3 witness: autogenerate "x,y" with x already populated; x is retained
verbatim. -/
theorem generateData_preserves_and_generates_witness :
    alLookup (generateData ⟨false, 4, ""⟩ (fun _ => Except.ok [0, 0, 0, 0])
        ⟨[("x", [118])], [(AnnotationSecretAutoGenerate, "x,y")]⟩).secret.data "x" =
      alLookup [("x", [118])] "x" :=
  (generateData_preserves_and_generates ⟨false, 4, ""⟩ (fun _ => Except.ok [0, 0, 0, 0])
      ⟨[("x", [118])], [(AnnotationSecretAutoGenerate, "x,y")]⟩ 4 false rfl
      (fun _ => ⟨[0, 0, 0, 0], rfl⟩) (by decide) "x" (by decide)).1 (by decide)

/-- C5 (confirmed): with a regenerate-request annotation "yes", and either
the secure marker present or the insecure-regeneration policy disabled, a
successful pass regenerates every declared field and the regenerate-request
annotation is absent afterwards. -/
theorem generateData_regenerate_yes (cfg : Config) (entropy : Nat → Except String Bytes)
    (s : Secret) (L : Nat) (iB : Bool)
    (hins : (alLookup s.annotations AnnotationSecretSecure).isSome = true ∨
      RegenerateInsecure cfg = false)
    (hreg : alLookup s.annotations AnnotationSecretRegenerate = some "yes")
    (hu : ensureUniqueness (stringsSplit ( annGet s.annotations AnnotationSecretAutoGenerate) ',') =
      Except.ok ())
    (hent : ∀ j, ∃ b, entropy j = Except.ok b)
    (hparse : ParseByteLength (DefaultLength cfg)
        ( GetLengthFromAnnotation (DefaultLength cfg)
          (computeRegenKeys cfg s
            (stringsSplit ( annGet s.annotations AnnotationSecretAutoGenerate) ',')).1.annotations) =
      (L, iB, none)) :
    (generateData cfg entropy s).err = none ∧
    (∀ k ∈ stringsSplit ( annGet s.annotations AnnotationSecretAutoGenerate) ',',
      ∃ i v, generateRandomSecretValue cfg (entropy i)
          (computeRegenKeys cfg s
            (stringsSplit ( annGet s.annotations AnnotationSecretAutoGenerate) ',')).1.annotations
          L iB = Except.ok v ∧
        alLookup (generateData cfg entropy s).secret.data k = some v) ∧
    alLookup (generateData cfg entropy s).secret.annotations AnnotationSecretRegenerate = none := by
  have hnd := (ensureUniqueness_ok_iff _).mp hu
  have hc1 : ¬((alLookup s.annotations AnnotationSecretSecure).isNone ∧ RegenerateInsecure cfg) := by
    rcases hins with h | h
    · rintro ⟨hn, -⟩
      rw [Option.isNone_iff_eq_none] at hn
      rw [hn] at h
      simp at h
    · rintro ⟨-, hr⟩
      rw [h] at hr
      cases hr
  have hcrk : computeRegenKeys cfg s
      (stringsSplit ( annGet s.annotations AnnotationSecretAutoGenerate) ',') =
      ({ s with annotations := alErase s.annotations AnnotationSecretRegenerate },
        stringsSplit ( annGet s.annotations AnnotationSecretAutoGenerate) ',') := by
    simp only [computeRegenKeys, if_neg hc1, hreg]
    simp
  obtain ⟨herr, -, -, hin, hann⟩ :=
    regenerateKeysWhereRequired_char cfg entropy s _ hnd hent L iB hparse
  rw [generateData_eq_of_unique cfg entropy s hu]
  refine ⟨herr, ?_, ?_⟩
  · intro k hk
    have hwg : willGen (computeRegenKeys cfg s
        (stringsSplit ( annGet s.annotations AnnotationSecretAutoGenerate) ',')).2 s.data k = true := by
      rw [hcrk]
      simp [willGen, (contains_iff _ _).mpr hk]
    obtain ⟨v, hv, hl⟩ := (hin k hk).2 hwg
    exact ⟨_, v, hv, hl⟩
  · rw [hann]
    have hcnt : (stringsSplit ( annGet s.annotations AnnotationSecretAutoGenerate) ',').countP
        (fun k2 => willGen (computeRegenKeys cfg s
          (stringsSplit ( annGet s.annotations AnnotationSecretAutoGenerate) ',')).2 s.data k2) =
        (stringsSplit ( annGet s.annotations AnnotationSecretAutoGenerate) ',').length := by
      rw [List.countP_eq_length]
      intro a ha
      rw [hcrk]
      simp [willGen, (contains_iff _ _).mpr ha]
    rw [if_pos hcnt]
    rw [alLookup_alInsert_ne _ _ _ _
      (by decide : AnnotationSecretRegenerate ≠ AnnotationSecretSecure)]
    rw [hcrk]
    exact alLookup_alErase_self s.annotations AnnotationSecretRegenerate

/-- C5 witness: declared field "x" populated, secure marker present,
regenerate "yes": the pass succeeds and the request annotation is gone. -/
theorem generateData_regenerate_yes_witness :
    (generateData ⟨false, 4, ""⟩ (fun _ => Except.ok [0, 0, 0, 0])
        ⟨[("x", [118])], [(AnnotationSecretAutoGenerate, "x"),
          (AnnotationSecretRegenerate, "yes"), (AnnotationSecretSecure, "yes")]⟩).err = none ∧
    alLookup (generateData ⟨false, 4, ""⟩ (fun _ => Except.ok [0, 0, 0, 0])
        ⟨[("x", [118])], [(AnnotationSecretAutoGenerate, "x"),
          (AnnotationSecretRegenerate, "yes"),
          (AnnotationSecretSecure, "yes")]⟩).secret.annotations
      AnnotationSecretRegenerate = none :=
  ⟨(generateData_regenerate_yes ⟨false, 4, ""⟩ (fun _ => Except.ok [0, 0, 0, 0])
      ⟨[("x", [118])], [(AnnotationSecretAutoGenerate, "x"),
        (AnnotationSecretRegenerate, "yes"), (AnnotationSecretSecure, "yes")]⟩ 4 false
      (Or.inl (by decide)) (by decide) rfl (fun _ => ⟨[0, 0, 0, 0], rfl⟩) (by decide)).1,
   (generateData_regenerate_yes ⟨false, 4, ""⟩ (fun _ => Except.ok [0, 0, 0, 0])
      ⟨[("x", [118])], [(AnnotationSecretAutoGenerate, "x"),
        (AnnotationSecretRegenerate, "yes"), (AnnotationSecretSecure, "yes")]⟩ 4 false
      (Or.inl (by decide)) (by decide) rfl (fun _ => ⟨[0, 0, 0, 0], rfl⟩) (by decide)).2.2⟩

/-- C9 counterexample: autogenerate annotation absent but the data map
already holds a non-empty value under the empty-string name: the pass
succeeds yet writes nothing and sets no secure marker, so the claim as
stated fails. -/
theorem generateData_empty_autogen_counterexample :
    alLookup ([] : StrMap) AnnotationSecretAutoGenerate = none ∧
    generateData ⟨false, 4, ""⟩ (fun _ => Except.ok [0, 0, 0, 0]) ⟨[("", [120])], []⟩ =
      { secret := ⟨[("", [120])], []⟩, res := {}, err := none } := by decide

/-- C9 (corrected) amended: for a resource whose autogenerate annotation is
absent or empty and whose data map holds no non-empty value under the
empty-string name, the pass generates a fresh value under the empty-string
field and sets the secure marker. -/
theorem generateData_empty_autogen (cfg : Config) (entropy : Nat → Except String Bytes)
    (s : Secret) (L : Nat) (iB : Bool)
    (hag : alLookup s.annotations AnnotationSecretAutoGenerate = none ∨
      alLookup s.annotations AnnotationSecretAutoGenerate = some "")
    (hdata : dataGet s.data "" = [])
    (hent : ∀ j, ∃ b, entropy j = Except.ok b)
    (hparse : ParseByteLength (DefaultLength cfg)
        ( GetLengthFromAnnotation (DefaultLength cfg)
          (computeRegenKeys cfg s [""]).1.annotations) = (L, iB, none)) :
    (generateData cfg entropy s).err = none ∧
    (∃ v, generateRandomSecretValue cfg (entropy 0)
        (computeRegenKeys cfg s [""]).1.annotations L iB = Except.ok v ∧
      alLookup (generateData cfg entropy s).secret.data "" = some v) ∧
    alLookup (generateData cfg entropy s).secret.annotations AnnotationSecretSecure =
      some "yes" := by
  have hkeys : stringsSplit ( annGet s.annotations AnnotationSecretAutoGenerate) ',' = [""] := by
    rcases hag with h | h
    · have h2 : annGet s.annotations AnnotationSecretAutoGenerate = "" := by simp [annGet, h]
      rw [h2]
      decide
    · have h2 : annGet s.annotations AnnotationSecretAutoGenerate = "" := by simp [annGet, h]
      rw [h2]
      decide
  have hu : ensureUniqueness (stringsSplit ( annGet s.annotations AnnotationSecretAutoGenerate) ',') =
      Except.ok () := by
    rw [hkeys]
    rfl
  obtain ⟨herr, -, -, hin, hann⟩ :=
    regenerateKeysWhereRequired_char cfg entropy s [""] (by decide) hent L iB hparse
  rw [generateData_eq_of_unique cfg entropy s hu, hkeys]
  have hwg : willGen (computeRegenKeys cfg s [""]).2 s.data "" = true := by
    simp [willGen, hdata]
  refine ⟨herr, ?_, ?_⟩
  · obtain ⟨v, hv, hl⟩ := (hin "" (by simp)).2 hwg
    refine ⟨v, ?_, hl⟩
    simpa using hv
  · rw [hann]
    have hcnt : ([""] : List String).countP
        (fun k2 => willGen (computeRegenKeys cfg s [""]).2 s.data k2) =
        ([""] : List String).length := by
      simp [List.countP_cons, hwg]
    rw [if_pos hcnt]
    exact alLookup_alInsert_self _ AnnotationSecretSecure "yes"

/-- C9 witness: entirely empty resource with the default configuration. -/
theorem generateData_empty_autogen_witness :
    (generateData ⟨false, 4, ""⟩ (fun _ => Except.ok [0, 0, 0, 0]) ⟨[], []⟩).err = none ∧
    alLookup (generateData ⟨false, 4, ""⟩ (fun _ => Except.ok [0, 0, 0, 0])
        ⟨[], []⟩).secret.annotations AnnotationSecretSecure = some "yes" :=
  ⟨(generateData_empty_autogen ⟨false, 4, ""⟩ (fun _ => Except.ok [0, 0, 0, 0]) ⟨[], []⟩ 4 false
      (Or.inl rfl) rfl (fun _ => ⟨[0, 0, 0, 0], rfl⟩) (by decide)).1,
   (generateData_empty_autogen ⟨false, 4, ""⟩ (fun _ => Except.ok [0, 0, 0, 0]) ⟨[], []⟩ 4 false
      (Or.inl rfl) rfl (fun _ => ⟨[0, 0, 0, 0], rfl⟩) (by decide)).2.2⟩

/-- C1 counterexample: a resource whose type annotation holds the invalid
non-empty value "junk" and whose annotations contain no autogenerate key is
not ignored: the pass defaults the type to string, generates, and calls
persistence. -/
theorem reconcile_invalid_type_counterexample :
    TypeValidate ( annGet ([(AnnotationSecretType, "junk")] : StrMap) AnnotationSecretType) =
      false ∧
    annGet ([(AnnotationSecretType, "junk")] : StrMap) AnnotationSecretType ≠ "" ∧
    alLookup ([(AnnotationSecretType, "junk")] : StrMap) AnnotationSecretAutoGenerate = none ∧
    (Reconcile ⟨false, 4, ""⟩ (fun _ => Except.ok [0, 0, 0, 0])
        (fun _ s => { secret := s, res := {}, err := none }) "T" none
        ⟨[], [(AnnotationSecretType, "junk")]⟩).updated.isSome = true := by decide

/-- C1 (corrected) amended: the reconciliation pass is a no-op exactly for
resources whose type annotation is empty or absent and whose annotations
contain no autogenerate key: no error, no mutation, no persistence call. -/
theorem reconcile_noop_no_type_no_autogen (cfg : Config)
    (entropy : Nat → Except String Bytes) (otherGen : String → Secret → GenOutcome)
    (now : String) (updateErr : Option String) (s : Secret)
    (htype : annGet s.annotations AnnotationSecretType = "")
    (hag : alLookup s.annotations AnnotationSecretAutoGenerate = none) :
    Reconcile cfg entropy otherGen now updateErr s =
      { res := {}, err := none, updated := none, secret := s } := by
  have hval : TypeValidate "" = false := by decide
  simp [Reconcile, hval, hag, htype]

/-- C1 witness: a resource with an unrelated annotation and one data field
is returned untouched with no update call. -/
theorem reconcile_noop_no_type_no_autogen_witness :
    Reconcile ⟨true, 8, "hex"⟩ (fun _ => Except.error "e")
        (fun _ s => { secret := s, res := {}, err := none }) "now" (some "uerr")
        ⟨[("x", [1])], [("other", "v")]⟩ =
      { res := {}, err := none, updated := none, secret := ⟨[("x", [1])], [("other", "v")]⟩ } :=
  reconcile_noop_no_type_no_autogen ⟨true, 8, "hex"⟩ (fun _ => Except.error "e")
    (fun _ s => { secret := s, res := {}, err := none }) "now" (some "uerr")
    ⟨[("x", [1])], [("other", "v")]⟩ (by decide) (by decide)

/-- C10 counterexample: with an invalid type annotation and an autogenerate
annotation holding a duplicate list, the type annotation is defaulted on the
working copy but the pass errors out before any persistence call, so the
claim's unconditional persistence fails. -/
theorem reconcile_defaults_type_counterexample :
    TypeValidate ( annGet ([(AnnotationSecretType, "junk"),
        (AnnotationSecretAutoGenerate, "a,a")] : StrMap) AnnotationSecretType) = false ∧
    (alLookup ([(AnnotationSecretType, "junk"), (AnnotationSecretAutoGenerate, "a,a")] : StrMap)
      AnnotationSecretAutoGenerate).isSome = true ∧
    (Reconcile ⟨false, 4, ""⟩ (fun _ => Except.ok [0, 0, 0, 0])
        (fun _ s => { secret := s, res := {}, err := none }) "T" none
        ⟨[], [(AnnotationSecretType, "junk"),
          (AnnotationSecretAutoGenerate, "a,a")]⟩).updated = none := by decide

/-- C10 (corrected) amended: with an absent or invalid type annotation, an
autogenerate annotation present, and a generator pass that returns no
error, Reconcile writes the literal "string" into the type annotation of
the persisted copy, persists it, and stamps the generated-at timestamp. -/
theorem reconcile_defaults_type_and_persists (cfg : Config)
    (entropy : Nat → Except String Bytes) (otherGen : String → Secret → GenOutcome)
    (now : String) (updateErr : Option String) (s : Secret)
    (htype : TypeValidate ( annGet s.annotations AnnotationSecretType) = false)
    (hag : (alLookup s.annotations AnnotationSecretAutoGenerate).isSome = true)
    (hgen : (generateData cfg entropy
        { s with annotations := alInsert s.annotations AnnotationSecretType TypeString }).err =
      none) :
    ∃ d, (Reconcile cfg entropy otherGen now updateErr s).updated = some d ∧
      alLookup d.annotations AnnotationSecretType = some TypeString ∧
      alLookup d.annotations AnnotationSecretAutoGeneratedAt = some now := by
  have hcond2 : ¬((alLookup s.annotations AnnotationSecretAutoGenerate).isNone = true ∧
      ( annGet s.annotations AnnotationSecretType) = "") := by
    rintro ⟨hn, -⟩
    rw [Option.isNone_iff_eq_none] at hn
    rw [hn] at hag
    simp at hag
  have hd1 : ¬(TypeString = TypeSSHKeypair) := by decide
  have hr : alLookup (generateData cfg entropy
      { s with annotations := alInsert s.annotations AnnotationSecretType TypeString }).secret.annotations
      AnnotationSecretType = some TypeString := by
    rw [generateData_ann_lookup cfg entropy _ AnnotationSecretType (by decide) (by decide)]
    exact alLookup_alInsert_self s.annotations AnnotationSecretType TypeString
  have hupd : needsUpdate s (generateData cfg entropy
      { s with annotations := alInsert s.annotations AnnotationSecretType TypeString }).secret =
      true := by
    apply needsUpdate_true_of_ann s _ AnnotationSecretType
    rw [hr]
    intro heq
    have hgetd : annGet s.annotations AnnotationSecretType = TypeString := by
      simp [annGet, heq]
    rw [hgetd] at htype
    exact absurd htype (by decide)
  simp only [Reconcile, htype, Bool.false_eq_true, if_false, if_neg hcond2, if_neg hd1,
    if_pos rfl, hgen, hupd, if_true]
  cases updateErr with
  | some ue =>
    refine ⟨_, rfl, ?_, ?_⟩
    · rw [alLookup_alInsert_ne _ _ _ _
        (by decide : AnnotationSecretType ≠ AnnotationSecretAutoGeneratedAt)]
      exact hr
    · exact alLookup_alInsert_self _ AnnotationSecretAutoGeneratedAt now
  | none =>
    refine ⟨_, rfl, ?_, ?_⟩
    · rw [alLookup_alInsert_ne _ _ _ _
        (by decide : AnnotationSecretType ≠ AnnotationSecretAutoGeneratedAt)]
      exact hr
    · exact alLookup_alInsert_self _ AnnotationSecretAutoGeneratedAt now

/-- C10 witness: type annotation absent, autogenerate "x" already
populated: the pass persists a copy whose type annotation is "string" and
whose generated-at annotation holds the timestamp. -/
theorem reconcile_defaults_type_and_persists_witness :
    ∃ d, (Reconcile ⟨false, 4, ""⟩ (fun _ => Except.ok [0, 0, 0, 0])
        (fun _ s => { secret := s, res := {}, err := none }) "TS" none
        ⟨[("x", [118])], [(AnnotationSecretAutoGenerate, "x")]⟩).updated = some d ∧
      alLookup d.annotations AnnotationSecretType = some TypeString ∧
      alLookup d.annotations AnnotationSecretAutoGeneratedAt = some "TS" :=
  reconcile_defaults_type_and_persists ⟨false, 4, ""⟩ (fun _ => Except.ok [0, 0, 0, 0])
    (fun _ s => { secret := s, res := {}, err := none }) "TS" none
    ⟨[("x", [118])], [(AnnotationSecretAutoGenerate, "x")]⟩
    (by decide) (by decide) (by decide)

end SecretCtrl
